import Mathlib

set_option autoImplicit false
set_option linter.unnecessarySeqFocus false

namespace PyEditor

/-- Convert a Lean string literal to the character-list representation used
for Python `str` values throughout this development. -/
def cl (s : String) : List Char := s.toList

/-- Embedding of the Python/JSON value universe manipulated by
`workspace/a5555/sandboxes/utils/sse.py`: `None`, booleans, integers, floats
(kept as their source lexeme, since only truthiness of floats is ever
consumed by the code under study), strings, lists, and insertion-ordered
dicts — exactly the values `json.loads` can return. -/
inductive PyVal where
  | none
  | bool (b : Bool)
  | intV (n : Int)
  | floatV (lex : List Char)
  | str (s : List Char)
  | list (xs : List PyVal)
  | dict (kvs : List (List Char × PyVal))

/-- Digit characters appearing before any exponent marker of a float lexeme. -/
def mantissaDigits (lex : List Char) : List Char :=
  (lex.takeWhile (fun c => c ≠ 'e' ∧ c ≠ 'E')).filter Char.isDigit

/-- Whether a float lexeme denotes the value zero (all mantissa digits `0`,
and there is at least one digit — `NaN`/`Infinity` lexemes are nonzero). -/
def floatLexIsZero (lex : List Char) : Bool :=
  let ds := mantissaDigits lex
  !ds.isEmpty && ds.all (fun c => c == '0')

/-- Python truthiness `bool(v)` restricted to the JSON value universe. -/
def pyTruthy : PyVal → Bool
  | .none => false
  | .bool b => b
  | .intV n => n != 0
  | .floatV lex => !floatLexIsZero lex
  | .str s => !s.isEmpty
  | .list xs => !xs.isEmpty
  | .dict kvs => !kvs.isEmpty

/-- Ordered-dict lookup (Python `dict.__contains__`/`get` key search:
first matching key wins). -/
def assocGet {α : Type} : List (List Char × α) → List Char → Option α
  | [], _ => Option.none
  | kv :: rest, k => if kv.1 == k then Option.some kv.2 else assocGet rest k

/-- `assocGet` at the JSON value type. -/
def pyLookup (kvs : List (List Char × PyVal)) (k : List Char) : Option PyVal :=
  assocGet kvs k

/-- Ordered-dict insertion: replace in place when the key exists (Python
keeps the first position and overwrites the value), append otherwise. -/
def assocSet {α : Type} (kvs : List (List Char × α)) (k : List Char) (v : α) :
    List (List Char × α) :=
  match kvs with
  | [] => [(k, v)]
  | kv :: rest => if kv.1 == k then (k, v) :: rest else kv :: assocSet rest k v

/-! ### A model of Python `json.loads`

`sse.py` calls the standard library `json.loads`; the library itself is not
part of the repository, so the parser below models its documented behaviour
(RFC 8259 grammar plus the CPython extensions `NaN`/`Infinity`/`-Infinity`),
including: JSON whitespace only (space, tab, LF, CR), double-quoted strings
with `\uXXXX` escapes and surrogate pairs, the int/float lexeme distinction,
duplicate object keys resolved last-wins, and rejection of trailing data. -/

/-- Python `s.startswith(pat)` (`List.isPrefixOf`, with the pattern
examined first so that it reduces on concrete patterns). -/
def startsWithL : List Char → List Char → Bool
  | [], _ => true
  | p :: ps, rest =>
    match rest with
    | [] => false
    | c :: cs => p == c && startsWithL ps cs

/-- The four JSON whitespace characters recognised by `json.loads`. -/
def jsonWs (c : Char) : Bool :=
  c == ' ' || c == '\t' || c == '\n' || c == '\r'

/-- Skip JSON whitespace. -/
def skipWs (cs : List Char) : List Char := cs.dropWhile jsonWs

/-- Value of one hex digit, if it is one. -/
def hexVal (c : Char) : Option Nat :=
  if '0' ≤ c ∧ c ≤ '9' then Option.some (c.toNat - 48)
  else if 'a' ≤ c ∧ c ≤ 'f' then Option.some (c.toNat - 87)
  else if 'A' ≤ c ∧ c ≤ 'F' then Option.some (c.toNat - 55)
  else Option.none

/-- Read exactly four hex digits. -/
def parseHex4 : List Char → Option (Nat × List Char)
  | a :: b :: c :: d :: rest => do
      let va ← hexVal a
      let vb ← hexVal b
      let vc ← hexVal c
      let vd ← hexVal d
      pure (va * 4096 + vb * 256 + vc * 16 + vd, rest)
  | _ => Option.none

/-- Is a code unit a high (leading) surrogate? -/
def isHighSurr (n : Nat) : Bool := 55296 ≤ n && n ≤ 56319

/-- Is a code unit a low (trailing) surrogate? -/
def isLowSurr (n : Nat) : Bool := 56320 ≤ n && n ≤ 57343

/-- Body of a JSON string after the opening quote: processes escapes
(including `\uXXXX` with surrogate-pair combining) up to the closing quote.
Lone surrogates, which CPython would keep as unpaired code units, are not
representable as Lean characters and make the parse fail; unescaped control
characters are rejected as in `json.loads` strict mode. -/
def parseJStrAux : Nat → List Char → List Char → Option (List Char × List Char)
  | 0, _, _ => Option.none
  | fuel + 1, acc, cs =>
    match cs with
    | [] => Option.none
    | '"' :: rest => Option.some (acc.reverse, rest)
    | '\\' :: esc :: rest =>
      if esc = 'u' then
        match parseHex4 rest with
        | Option.none => Option.none
        | Option.some (n, r1) =>
          if isHighSurr n then
            match r1 with
            | '\\' :: 'u' :: r2 =>
              match parseHex4 r2 with
              | Option.some (m, r3) =>
                if isLowSurr m then
                  parseJStrAux fuel
                    (Char.ofNat (65536 + (n - 55296) * 1024 + (m - 56320)) :: acc) r3
                else Option.none
              | Option.none => Option.none
            | _ => Option.none
          else if isLowSurr n then Option.none
          else parseJStrAux fuel (Char.ofNat n :: acc) r1
      else if esc = '"' then parseJStrAux fuel ('"' :: acc) rest
      else if esc = '\\' then parseJStrAux fuel ('\\' :: acc) rest
      else if esc = '/' then parseJStrAux fuel ('/' :: acc) rest
      else if esc = 'b' then parseJStrAux fuel (Char.ofNat 8 :: acc) rest
      else if esc = 'f' then parseJStrAux fuel (Char.ofNat 12 :: acc) rest
      else if esc = 'n' then parseJStrAux fuel ('\n' :: acc) rest
      else if esc = 'r' then parseJStrAux fuel ('\r' :: acc) rest
      else if esc = 't' then parseJStrAux fuel ('\t' :: acc) rest
      else Option.none
    | c :: rest =>
      if c.toNat < 32 then Option.none
      else parseJStrAux fuel (c :: acc) rest

/-- Decimal digits at the front of the input, and the rest. -/
def takeDigits (cs : List Char) : List Char × List Char :=
  (cs.takeWhile Char.isDigit, cs.dropWhile Char.isDigit)

/-- Natural number value of a digit string. -/
def digitsToNat (ds : List Char) : Nat :=
  ds.foldl (fun a c => a * 10 + (c.toNat - 48)) 0

/-- A JSON number, following the `json` library regex
`-?(0|[1-9][0-9]*)(\.[0-9]+)?([eE][+-]?[0-9]+)?` with each optional group
matched greedily: integer lexemes become `intV`, lexemes with a fraction or
exponent become `floatV`. -/
def parseJNum (cs : List Char) : Option (PyVal × List Char) :=
  let signed : Bool × List Char :=
    match cs with
    | '-' :: r => (true, r)
    | _ => (false, cs)
  match signed.2 with
  | [] => Option.none
  | c :: _ =>
    if !c.isDigit then Option.none
    else
      let ip : List Char × List Char :=
        if c = '0' then ([ '0' ], signed.2.drop 1) else takeDigits signed.2
      let frac : List Char × List Char :=
        match ip.2 with
        | '.' :: r1 =>
          let p := takeDigits r1
          if p.1.isEmpty then ([], ip.2) else ('.' :: p.1, p.2)
        | _ => ([], ip.2)
      let ex : List Char × List Char :=
        match frac.2 with
        | e :: r1 =>
          if e = 'e' ∨ e = 'E' then
            let sgn : List Char × List Char :=
              match r1 with
              | '+' :: r2 => ([ '+' ], r2)
              | '-' :: r2 => ([ '-' ], r2)
              | _ => ([], r1)
            let p := takeDigits sgn.2
            if p.1.isEmpty then ([], frac.2) else (e :: sgn.1 ++ p.1, p.2)
          else ([], frac.2)
        | _ => ([], frac.2)
      if frac.1.isEmpty ∧ ex.1.isEmpty then
        let n : Int := Int.ofNat (digitsToNat ip.1)
        Option.some (.intV (if signed.1 then -n else n), ip.2)
      else
        let lex := (if signed.1 then [ '-' ] else []) ++ ip.1 ++ frac.1 ++ ex.1
        Option.some (.floatV lex, ex.2)

mutual

/-- One step of the mutually recursive `json.loads` grammar: a value.
All three functions recurse on an explicit fuel argument. -/
def parseVal : Nat → List Char → Option (PyVal × List Char)
  | 0, _ => Option.none
  | fuel + 1, cs =>
    match cs with
    | [] => Option.none
    | '"' :: rest =>
      match parseJStrAux (rest.length + 1) [] rest with
      | Option.some (s, r) => Option.some (.str s, r)
      | Option.none => Option.none
    | 't' :: 'r' :: 'u' :: 'e' :: rest => Option.some (.bool true, rest)
    | 'f' :: 'a' :: 'l' :: 's' :: 'e' :: rest => Option.some (.bool false, rest)
    | 'n' :: 'u' :: 'l' :: 'l' :: rest => Option.some (.none, rest)
    | 'N' :: 'a' :: 'N' :: rest => Option.some (.floatV (cl "NaN"), rest)
    | 'I' :: 'n' :: 'f' :: 'i' :: 'n' :: 'i' :: 't' :: 'y' :: rest =>
      Option.some (.floatV (cl "Infinity"), rest)
    | '[' :: rest =>
      let r0 := skipWs rest
      match r0 with
      | ']' :: r1 => Option.some (.list [], r1)
      | _ => parseElems fuel [] r0
    | c :: rest =>
      if c = Char.ofNat 123 then
        let r0 := skipWs rest
        match r0 with
        | c1 :: r1 =>
          if c1 = Char.ofNat 125 then Option.some (.dict [], r1)
          else parseMembers fuel [] r0
        | [] => Option.none
      else if c = '-' then
        match parseJNum cs with
        | Option.some p => Option.some p
        | Option.none =>
          match rest with
          | 'I' :: 'n' :: 'f' :: 'i' :: 'n' :: 'i' :: 't' :: 'y' :: r1 =>
            Option.some (.floatV (cl "-Infinity"), r1)
          | _ => Option.none
      else if c.isDigit then parseJNum cs
      else Option.none

/-- Array elements after `[` (first element not yet parsed). -/
def parseElems : Nat → List PyVal → List Char → Option (PyVal × List Char)
  | 0, _, _ => Option.none
  | fuel + 1, acc, cs =>
    match parseVal fuel cs with
    | Option.none => Option.none
    | Option.some (v, r1) =>
      match skipWs r1 with
      | ',' :: r2 => parseElems fuel (v :: acc) (skipWs r2)
      | ']' :: r2 => Option.some (.list (acc.reverse ++ [ v ]), r2)
      | _ => Option.none

/-- Object members after the opening brace (first member not yet parsed). -/
def parseMembers : Nat → List (List Char × PyVal) → List Char →
    Option (PyVal × List Char)
  | 0, _, _ => Option.none
  | fuel + 1, acc, cs =>
    match cs with
    | '"' :: rest =>
      match parseJStrAux (rest.length + 1) [] rest with
      | Option.none => Option.none
      | Option.some (k, r1) =>
        match skipWs r1 with
        | ':' :: r2 =>
          match parseVal fuel (skipWs r2) with
          | Option.none => Option.none
          | Option.some (v, r3) =>
            match skipWs r3 with
            | ',' :: r4 => parseMembers fuel (assocSet acc k v) (skipWs r4)
            | c :: r4 =>
              if c = Char.ofNat 125 then
                Option.some (.dict (assocSet acc k v), r4)
              else Option.none
            | [] => Option.none
        | _ => Option.none
    | _ => Option.none

end

/-- `json.loads`: parse a complete JSON document, rejecting trailing data.
Returns `Option.none` where the library would raise `JSONDecodeError`. -/
def loads (s : List Char) : Option PyVal :=
  let cs := skipWs s
  match parseVal (2 * cs.length + 8) cs with
  | Option.some (v, rest) => if (skipWs rest).isEmpty then Option.some v else Option.none
  | Option.none => Option.none

/-! ### A model of CPython `bytes.decode("utf-8", errors="replace")` and
`str.encode("utf-8")`

`sse.py` decodes every received chunk (and re-encodes frames) with the
standard library codec; bytes are modelled as `Nat` values below 256.
The decoder follows the W3C/Unicode maximal-subpart policy CPython
implements: each maximal prefix of a valid sequence that cannot be
completed is replaced by a single U+FFFD, and an invalid byte is replaced
on its own. -/

/-- The replacement character U+FFFD. -/
def repl : Char := Char.ofNat 65533

/-- Is `b` a UTF-8 continuation byte (`0x80`–`0xBF`)? -/
def contOk (b : Nat) : Bool := 128 ≤ b && b ≤ 191

/-- Valid range of the second byte of a three-byte sequence, which depends
on the lead byte (`0xE0` and `0xED` restrict it to exclude overlong forms
and surrogates). -/
def cont2Ok3 (b b2 : Nat) : Bool :=
  if b = 224 then 160 ≤ b2 && b2 ≤ 191
  else if b = 237 then 128 ≤ b2 && b2 ≤ 159
  else contOk b2

/-- Valid range of the second byte of a four-byte sequence (`0xF0` and
`0xF4` restrict it to exclude overlong forms and out-of-range planes). -/
def cont2Ok4 (b b2 : Nat) : Bool :=
  if b = 240 then 144 ≤ b2 && b2 ≤ 191
  else if b = 244 then 128 ≤ b2 && b2 ≤ 143
  else contOk b2

/-- Fuel-driven core of the decoder (structural on the fuel, which the
caller picks above the input length, so the exhaustion case is never
reached). -/
def decodeRAux : Nat → List Nat → List Char
  | 0, _ => []
  | fuel + 1, l =>
    match l with
    | [] => []
    | b :: rest =>
      if b < 128 then Char.ofNat b :: decodeRAux fuel rest
      else if 194 ≤ b && b ≤ 223 then
        match rest with
        | [] => [ repl ]
        | b2 :: rest2 =>
          if contOk b2 then
            Char.ofNat ((b - 192) * 64 + (b2 - 128)) :: decodeRAux fuel rest2
          else repl :: decodeRAux fuel (b2 :: rest2)
      else if 224 ≤ b && b ≤ 239 then
        match rest with
        | [] => [ repl ]
        | b2 :: rest2 =>
          if cont2Ok3 b b2 then
            match rest2 with
            | [] => [ repl ]
            | b3 :: rest3 =>
              if contOk b3 then
                Char.ofNat ((b - 224) * 4096 + (b2 - 128) * 64 + (b3 - 128)) ::
                  decodeRAux fuel rest3
              else repl :: decodeRAux fuel (b3 :: rest3)
          else repl :: decodeRAux fuel (b2 :: rest2)
      else if 240 ≤ b && b ≤ 244 then
        match rest with
        | [] => [ repl ]
        | b2 :: rest2 =>
          if cont2Ok4 b b2 then
            match rest2 with
            | [] => [ repl ]
            | b3 :: rest3 =>
              if contOk b3 then
                match rest3 with
                | [] => [ repl ]
                | b4 :: rest4 =>
                  if contOk b4 then
                    Char.ofNat
                      ((b - 240) * 262144 + (b2 - 128) * 4096 +
                        (b3 - 128) * 64 + (b4 - 128)) :: decodeRAux fuel rest4
                  else repl :: decodeRAux fuel (b4 :: rest4)
              else repl :: decodeRAux fuel (b3 :: rest3)
          else repl :: decodeRAux fuel (b2 :: rest2)
      else repl :: decodeRAux fuel rest

/-- `bytes.decode("utf-8", errors="replace")`. -/
def decodeR (l : List Nat) : List Char := decodeRAux (l.length + 1) l

/-- Fuel-driven core of the well-formedness check (fuel above the input
length, as for the decoder). -/
def validUtf8Aux : Nat → List Nat → Bool
  | 0, _ => false
  | fuel + 1, l =>
    match l with
    | [] => true
    | b :: rest =>
      if b < 128 then validUtf8Aux fuel rest
      else if 194 ≤ b && b ≤ 223 then
        match rest with
        | [] => false
        | b2 :: rest2 => contOk b2 && validUtf8Aux fuel rest2
      else if 224 ≤ b && b ≤ 239 then
        match rest with
        | [] => false
        | b2 :: rest2 =>
          match rest2 with
          | [] => false
          | b3 :: rest3 =>
            cont2Ok3 b b2 && contOk b3 && validUtf8Aux fuel rest3
      else if 240 ≤ b && b ≤ 244 then
        match rest with
        | [] => false
        | b2 :: rest2 =>
          match rest2 with
          | [] => false
          | b3 :: rest3 =>
            match rest3 with
            | [] => false
            | b4 :: rest4 =>
              cont2Ok4 b b2 && contOk b3 && contOk b4 &&
                validUtf8Aux fuel rest4
      else false

/-- Is a byte list well-formed UTF-8 (decodes without replacement)? -/
def validUtf8 (l : List Nat) : Bool := validUtf8Aux (l.length + 1) l

/-- `str.encode("utf-8")` for one character. -/
def encodeChar (c : Char) : List Nat :=
  let n := c.toNat
  if n < 128 then [ n ]
  else if n < 2048 then [ 192 + n / 64, 128 + n % 64 ]
  else if n < 65536 then
    [ 224 + n / 4096, 128 + n / 64 % 64, 128 + n % 64 ]
  else
    [ 240 + n / 262144, 128 + n / 4096 % 64, 128 + n / 64 % 64, 128 + n % 64 ]

/-- `str.encode("utf-8")`. -/
def encodeStr (cs : List Char) : List Nat := (cs.map encodeChar).flatten

/-! ### A model of Python `json.dumps(..., ensure_ascii=False)`

Used by `parse_sse_chunk_publish_to_redis` to serialize the published
message, and by the Error Formatter. Default separators `", "` and `": "`;
with `ensure_ascii=False` only the two JSON metacharacters and control
characters are escaped. Float lexemes are emitted as retained, which agrees
with CPython on the values this code ever serializes. -/

/-- Lowercase hex digit. -/
def hexDigit (n : Nat) : Char :=
  if n < 10 then Char.ofNat (48 + n) else Char.ofNat (87 + n)

/-- Four lowercase hex digits. -/
def hex4 (n : Nat) : List Char :=
  [ hexDigit (n / 4096 % 16), hexDigit (n / 256 % 16),
    hexDigit (n / 16 % 16), hexDigit (n % 16) ]

/-- JSON string escaping for one character (`ensure_ascii=False`). -/
def escapeJChar (c : Char) : List Char :=
  if c = '"' then [ '\\', '"' ]
  else if c = '\\' then [ '\\', '\\' ]
  else if c = '\n' then [ '\\', 'n' ]
  else if c = '\r' then [ '\\', 'r' ]
  else if c = '\t' then [ '\\', 't' ]
  else if c.toNat = 8 then [ '\\', 'b' ]
  else if c.toNat = 12 then [ '\\', 'f' ]
  else if c.toNat < 32 then '\\' :: 'u' :: hex4 c.toNat
  else [ c ]

/-- Serialize a JSON string with surrounding quotes. -/
def dumpJStr (s : List Char) : List Char :=
  '"' :: (s.map escapeJChar).flatten ++ [ '"' ]

mutual

/-- `json.dumps(v, ensure_ascii=False)` over the embedded value universe. -/
def pyDumps : PyVal → List Char
  | .none => cl "null"
  | .bool true => cl "true"
  | .bool false => cl "false"
  | .intV n => cl (toString n)
  | .floatV lex => lex
  | .str s => dumpJStr s
  | .list xs => '[' :: dumpsList xs ++ [ ']' ]
  | .dict kvs => Char.ofNat 123 :: dumpsDict kvs ++ [ Char.ofNat 125 ]

/-- Array items joined by `", "`. -/
def dumpsList : List PyVal → List Char
  | [] => []
  | [ x ] => pyDumps x
  | x :: y :: rest => pyDumps x ++ cl ", " ++ dumpsList (y :: rest)

/-- Object members joined by `", "`, key and value joined by `": "`. -/
def dumpsDict : List (List Char × PyVal) → List Char
  | [] => []
  | [ kv ] => dumpJStr kv.1 ++ cl ": " ++ pyDumps kv.2
  | kv :: kv2 :: rest =>
    dumpJStr kv.1 ++ cl ": " ++ pyDumps kv.2 ++ cl ", " ++ dumpsDict (kv2 :: rest)

end

/-! ### `utils/sse.py` — pure payload-extraction functions -/

/-- Python attribute/subscript errors are modelled by `Except` with the
exception class name as the message. -/
abbrev PyEx := List Char

/-- `obj.get(key, default)`: permissive lookup on dicts; any non-dict
receiver (which has no `get` attribute among JSON values) raises
`AttributeError`. -/
def pyGet (obj : PyVal) (k : List Char) (dflt : PyVal) : Except PyEx PyVal :=
  match obj with
  | .dict kvs => .ok ((pyLookup kvs k).getD dflt)
  | _ => .error (cl "AttributeError")

/-- Python `x[0]` on a JSON value: head of a nonempty list, first character
of a nonempty string; `IndexError` on empty sequences, `KeyError` on dicts
(JSON object keys are strings, so the integer key `0` is never present),
`TypeError` on non-subscriptable values. -/
def pySubscriptZero : PyVal → Except PyEx PyVal
  | .list [] => .error (cl "IndexError")
  | .list (x :: _) => .ok x
  | .str [] => .error (cl "IndexError")
  | .str (c :: _) => .ok (.str [ c ])
  | .dict _ => .error (cl "KeyError")
  | _ => .error (cl "TypeError")

/-- `is_json` from `sse.py`: `json.loads` succeeds (the `try/except`
over `ValueError`/`JSONDecodeError` returns `False` exactly on parse
failure). -/
def is_json (my_str : List Char) : Bool := (loads my_str).isSome

/-- `parse_json` from `sse.py`: strip the six-character `"data: "` marker
when the payload starts with it and parses as JSON, else the empty dict. -/
def parse_json (data : List Char) : PyVal :=
  if startsWithL (cl "data: ") data && is_json (data.drop 6) then
    (loads (data.drop 6)).getD (.dict [])
  else .dict []

/-- `get_text` from `sse.py`, with Python's raising attribute/subscript
accesses surfaced in `Except`. The result is whatever Python would return,
which is a string except when a present `content` member is non-string. -/
def get_text (obj : PyVal) : Except PyEx PyVal := do
  let choices ← pyGet obj (cl "choices") (.list [ .dict [] ])
  if !pyTruthy choices then return .str [] else
  let first ← pySubscriptZero choices
  let delta ← pyGet first (cl "delta") (.dict [])
  match delta with
  | .dict kvs => return (pyLookup kvs (cl "content")).getD (.str [])
  | _ => return .str []

/-- The Event Payload Extractor of spec §4.3: `get_text` after
`parse_json`, exactly the composition `sse.py` applies to a decoded
frame. -/
def extract (frame : List Char) : Except PyEx PyVal :=
  get_text (parse_json frame)

/-- `parse_sse_chunk_publish_to_redis` from `sse.py`: decode the chunk
with replacement, parse and extract, and if the extracted content is
truthy publish one JSON message to `sse.response:<request-id>`.
Returns the list of performed `r.publish(channel, message)` effects in
order together with the function's return value; a raising `get_text`
propagates and performs no publish. -/
def parse_sse_chunk_publish_to_redis (x_request_id : List Char)
    (chunk : List Nat) : Except PyEx (List (List Char × List Char) × PyVal) := do
  let decoded_chunk := decodeR chunk
  let parsed_chunk := parse_json decoded_chunk
  let redis_text_content ← get_text parsed_chunk
  if pyTruthy redis_text_content then
    let pub_data : PyVal :=
      .dict [(cl "type", .str (cl "answer")), (cl "content", redis_text_content)]
    let json_str := pyDumps pub_data
    return ([(cl "sse.response:" ++ x_request_id, json_str)], redis_text_content)
  else
    return ([], redis_text_content)

/-! ### The SSE Frame Splitter

`generate` keeps a text buffer, appends each decoded chunk, splits on
`"\n\n"` and retains the last piece. `splitNN` is Python's
`text.split("\n\n")` with the final piece separated out: the first
component is `events[:-1]`, the second `events[-1]`. -/

/-- `text.split("\n\n")`, returned as (complete pieces, trailing piece).
Scanning is greedy left to right on non-overlapping delimiter
occurrences, exactly as `str.split` with a two-character separator. -/
def splitNN : List Char → List (List Char) × List Char
  | [] => ([], [])
  | '\n' :: '\n' :: rest =>
    let p := splitNN rest
    ([] :: p.1, p.2)
  | c :: rest =>
    let p := splitNN rest
    match p.1 with
    | [] => ([], c :: p.2)
    | s :: ss => ((c :: s) :: ss, p.2)

/-- The splitter loop of `generate` over a list of already-decoded chunk
texts, starting from buffer `buf`: returns all pieces emitted across the
iterations, and the final buffer. -/
def feeds (buf : List Char) : List (List Char) → List (List Char) × List Char
  | [] => ([], buf)
  | c :: cs =>
    let p := splitNN (buf ++ c)
    let q := feeds p.2 cs
    (p.1 ++ q.1, q.2)

/-- The pieces the splitting loop in `generate` emits when fed the given
byte chunks one at a time (each chunk decoded with replacement on
arrival). -/
def splitEmitted (bss : List (List Nat)) : List (List Char) :=
  (feeds [] (bss.map decodeR)).1

/-! ### The Stream Orchestrator: `generate` from `utils/sse.py`

The `httpx` transport and the `exceptions` module are outside `src/`;
the transport is modelled by the observable scenario it presents to
`generate`, and the Error Formatter from the spec. -/

/-- Modelled from the spec: `format_sse_error` lives in the repository's
`exceptions` module, which is not under `src/`. Spec §4.5 and §6 define it
as rendering `data: {"status_code":…, "code":"…", "message":…, "data":…}`
— a single `data:` line holding the JSON-serialized error event — followed
by a blank line. -/
def format_sse_error (status_code : Nat) (code : List Char)
    (message : PyVal) (data : PyVal) : List Char :=
  cl "data: " ++
    pyDumps (.dict
      [ (cl "status_code", .intV (Int.ofNat status_code)),
        (cl "code", .str code),
        (cl "message", message),
        (cl "data", data) ]) ++ cl "\n\n"

/-- The transport failure classes `generate` distinguishes with its
`except` clauses: `httpx.ConnectError`, `httpx.TimeoutException`, and any
other `Exception`, each carrying its text. -/
inductive Exc where
  | connect (msg : List Char)
  | timeout (msg : List Char)
  | other (msg : List Char)

/-- One upstream interaction as `generate` can observe it through the
transport: the response status, the byte chunks its body iterator
produces before either finishing or raising `midErr` (relevant on the
2xx path), and the `aread()` outcome for the error path
(`Option.none` when reading the body raises). -/
structure Resp where
  status : Nat
  chunks : List (List Nat)
  midErr : Option Exc
  errBody : Option (List Nat)

/-- A full upstream scenario: either a response arrived, or the request
itself raised. -/
inductive Upstream where
  | resp (r : Resp)
  | raise (e : Exc)

/-- A yielded payload: the success path yields the extracted text value
(a `str` in the source), the failure paths yield encoded bytes. -/
inductive Payload where
  | text (v : PyVal)
  | bytes (bs : List Nat)

/-- The `except httpx.ConnectError` block of `generate`. -/
def connectYield (m : List Char) : Bool × Payload :=
  (false, .bytes (encodeStr (format_sse_error 500 (cl "60100")
    (.str (cl "Network error occurred during Athena API call"))
    (.dict [ (cl "detail", .str m) ]))))

/-- The `except httpx.TimeoutException` block of `generate`. -/
def timeoutYield : Bool × Payload :=
  (false, .bytes (encodeStr (format_sse_error 504 (cl "60100")
    (.str (cl "Athena API request timed out"))
    (.dict [ (cl "timeout", .intV 600) ]))))

/-- The final `except Exception` block of `generate`;
`traceback.format_exc()` is abstracted to the raising exception's text. -/
def unexpectedYield (m : List Char) : Bool × Payload :=
  (false, .bytes (encodeStr (format_sse_error 500 (cl "60100")
    (.str (cl "Unexpected error: " ++ m)) .none)))

/-- Dispatch of a raised transport exception to the matching `except`
block. -/
def excYield : Exc → Bool × Payload
  | .connect m => connectYield m
  | .timeout _ => timeoutYield
  | .other m => unexpectedYield m

/-- The ASCII characters `str.strip()` removes. -/
def pySpace (c : Char) : Bool :=
  c == ' ' || c == '\t' || c == '\n' || c == '\r' ||
    c == Char.ofNat 11 || c == Char.ofNat 12

/-- Python `str.strip()` (whitespace on both ends). -/
def pyStrip (s : List Char) : List Char :=
  ((s.dropWhile pySpace).reverse.dropWhile pySpace).reverse

/-- Python substring containment `sub in s`. -/
def containsSub (sub : List Char) : List Char → Bool
  | [] => sub.isEmpty
  | c :: rest => startsWithL sub (c :: rest) || containsSub sub rest

/-- The body of the inner `for event_text in events[:-1]` loop: skip
whitespace-only pieces, skip pieces without a `data:` marker, otherwise
re-suffix the frame with the delimiter, run
`parse_sse_chunk_publish_to_redis` on its UTF-8 bytes and yield
`(True, text_content)`. Returns the yields and publishes performed, or
the exception the extraction raised. -/
def processPiece (xid : List Char) (event_text : List Char) :
    Except PyEx ((List (Bool × Payload)) × List (List Char × List Char)) :=
  if (pyStrip event_text).isEmpty then .ok ([], [])
  else if containsSub (cl "data:") event_text then do
    let complete_event := event_text ++ cl "\n\n"
    let r ← parse_sse_chunk_publish_to_redis xid (encodeStr complete_event)
    return ([ (true, .text r.2) ], r.1)
  else .ok ([], [])

/-- The frame loop over a list of emitted pieces: concatenates the
yields and publishes of each piece until one raises; yields produced
before the raise have already reached the consumer. -/
def processPieces (xid : List Char) :
    List (List Char) →
    (List (Bool × Payload) × List (List Char × List Char)) × Option PyEx
  | [] => (([], []), Option.none)
  | p :: ps =>
    match processPiece xid p with
    | .error e => (([], []), Option.some e)
    | .ok (ys, pubs) =>
      let q := processPieces xid ps
      ((ys ++ q.1.1, pubs ++ q.1.2), q.2)

/-- The `async for chunk in response.aiter_bytes()` loop of `generate`:
decode each arriving chunk with replacement, append to the buffer, split
on the delimiter, keep the last piece as the new buffer, and process the
complete pieces; stops at the first raising frame. -/
def genLoop (xid : List Char) (buf : List Char) :
    List (List Nat) →
    (List (Bool × Payload) × List (List Char × List Char)) × Option PyEx
  | [] => (([], []), Option.none)
  | b :: bs =>
    let p := splitNN (buf ++ decodeR b)
    match processPieces xid p.1 with
    | ((ys, pubs), Option.some e) => ((ys, pubs), Option.some e)
    | ((ys, pubs), Option.none) =>
      let q := genLoop xid p.2 bs
      ((ys ++ q.1.1, pubs ++ q.1.2), q.2)

/-- The non-2xx branch's error payload: read the body (`aread()` failures
and JSON parse failures degrade to `{}` through the inner `try`, an empty
body short-circuits to `{}`). -/
def errorData (r : Resp) : PyVal :=
  match r.errBody with
  | Option.none => .dict []
  | Option.some bs =>
    if bs.isEmpty then .dict []
    else (loads (decodeR bs)).getD (.dict [])

/-- The non-2xx branch's single yield: the two `.get` calls on the error
data are outside the inner `try` and raise to the generic handler when
the body parsed to a JSON non-object. -/
def statusYield (r : Resp) : Except PyEx (Bool × Payload) := do
  let ed := errorData r
  let message ← pyGet ed (cl "message")
    (.str (cl "An error occurred during LLM API call"))
  let dataField ← pyGet ed (cl "data") .none
  return (false,
    .bytes (encodeStr (format_sse_error r.status (cl "60100") message dataField)))

/-- `generate` from `sse.py`: all pairs the generator yields, in order,
over one observed upstream scenario, together with the redis publishes it
performs. Every exception raised inside the `try` lands in one of the
three `except` blocks, which yield exactly one failure pair each. -/
def generate (xid : List Char) (up : Upstream) :
    List (Bool × Payload) × List (List Char × List Char) :=
  match up with
  | .raise e => ([ excYield e ], [])
  | .resp r =>
    if r.status = 200 ∨ r.status = 201 then
      match genLoop xid [] r.chunks with
      | ((ys, pubs), Option.some e) => (ys ++ [ unexpectedYield e ], pubs)
      | ((ys, pubs), Option.none) =>
        match r.midErr with
        | Option.some e => (ys ++ [ excYield e ], pubs)
        | Option.none => (ys, pubs)
    else
      match statusYield r with
      | .ok y => ([ y ], [])
      | .error e => ([ unexpectedYield e ], [])

/-! ### `utils/algo.py` — the Signer

`algo.py` calls the standard library `hmac`/`hashlib`/`base64`; those are
modelled below: SHA-256 as FIPS 180-4 defines it (round constants derived,
as in the standard, from the square and cube roots of the first
primes), HMAC as RFC 2104, base64 with the standard RFC 4648 alphabet and
padding. -/

/-- The first 64 primes, whose roots seed the SHA-256 constants. -/
def sha256Primes : List Nat :=
  [ 2, 3, 5, 7, 11, 13, 17, 19, 23, 29, 31, 37, 41, 43, 47, 53,
    59, 61, 67, 71, 73, 79, 83, 89, 97, 101, 103, 107, 109, 113, 127, 131,
    137, 139, 149, 151, 157, 163, 167, 173, 179, 181, 191, 193, 197, 199, 211, 223,
    227, 229, 233, 239, 241, 251, 257, 263, 269, 271, 277, 281, 283, 293, 307, 311 ]

/-- Binary-search integer cube root on `[lo, hi)` with explicit fuel. -/
def icbrtAux (n : Nat) : Nat → Nat → Nat → Nat
  | 0, lo, _ => lo
  | fuel + 1, lo, hi =>
    if hi ≤ lo + 1 then lo
    else
      let mid := (lo + hi) / 2
      if mid * mid * mid ≤ n then icbrtAux n fuel mid hi
      else icbrtAux n fuel lo mid

/-- Largest `r` with `r ^ 3 ≤ n`, for the inputs used here. -/
def icbrt (n : Nat) : Nat := icbrtAux n 64 0 (2 ^ 40)

/-- SHA-256 round constants: the first 32 bits of the fractional parts of
the cube roots of the first 64 primes. -/
def sha256K : List Nat :=
  sha256Primes.map (fun p => icbrt (p <<< 96) % 4294967296)

/-- SHA-256 initial hash value: the first 32 bits of the fractional parts
of the square roots of the first 8 primes. -/
def sha256H0 : List Nat :=
  (sha256Primes.take 8).map (fun p => Nat.sqrt (p <<< 64) % 4294967296)

/-- 32-bit rotate right. -/
def rotr32 (x n : Nat) : Nat :=
  ((x >>> n) ||| (x <<< (32 - n))) % 4294967296

/-- 32-bit modular sum of a list. -/
def add32 (xs : List Nat) : Nat := (xs.foldl (· + ·) 0) % 4294967296

/-- FIPS 180-4 `Ch`. -/
def shaCh (x y z : Nat) : Nat := (x &&& y) ^^^ ((x ^^^ 4294967295) &&& z)

/-- FIPS 180-4 `Maj`. -/
def shaMaj (x y z : Nat) : Nat := (x &&& y) ^^^ (x &&& z) ^^^ (y &&& z)

/-- FIPS 180-4 `Σ0`. -/
def bigSigma0 (x : Nat) : Nat := rotr32 x 2 ^^^ rotr32 x 13 ^^^ rotr32 x 22

/-- FIPS 180-4 `Σ1`. -/
def bigSigma1 (x : Nat) : Nat := rotr32 x 6 ^^^ rotr32 x 11 ^^^ rotr32 x 25

/-- FIPS 180-4 `σ0`. -/
def smallSigma0 (x : Nat) : Nat := rotr32 x 7 ^^^ rotr32 x 18 ^^^ (x >>> 3)

/-- FIPS 180-4 `σ1`. -/
def smallSigma1 (x : Nat) : Nat := rotr32 x 17 ^^^ rotr32 x 19 ^^^ (x >>> 10)

/-- Big-endian 8-byte encoding. -/
def be8 (n : Nat) : List Nat :=
  [ n >>> 56 % 256, n >>> 48 % 256, n >>> 40 % 256, n >>> 32 % 256,
    n >>> 24 % 256, n >>> 16 % 256, n >>> 8 % 256, n % 256 ]

/-- SHA-256 message padding: `0x80`, zeros to 56 mod 64, then the 64-bit
big-endian bit length. -/
def padMsg (msg : List Nat) : List Nat :=
  let L := msg.length
  msg ++ 128 :: List.replicate ((119 - L % 64) % 64) 0 ++ be8 (L * 8)

/-- Split into 64-byte blocks. -/
def toBlocks : List Nat → List (List Nat)
  | [] => []
  | b :: rest => (b :: rest.take 63) :: toBlocks (rest.drop 63)
termination_by l => l.length
decreasing_by
  simp only [List.length_drop, List.length_cons]
  omega

/-- Big-endian 32-bit words of a block. -/
def blockWords : List Nat → List Nat
  | b0 :: b1 :: b2 :: b3 :: rest =>
    (b0 <<< 24 + b1 <<< 16 + b2 <<< 8 + b3) :: blockWords rest
  | _ => []

/-- Extend the 16 message words to the 64-entry schedule. -/
def sha256Sched (ws : List Nat) : List Nat :=
  (List.range 48).foldl
    (fun w _ =>
      w ++ [ add32
        [ smallSigma1 (w.getD (w.length - 2) 0), w.getD (w.length - 7) 0,
          smallSigma0 (w.getD (w.length - 15) 0), w.getD (w.length - 16) 0 ] ])
    ws

/-- One compression round. -/
def sha256Round (st : List Nat) (kw : Nat × Nat) : List Nat :=
  match st with
  | [ a, b, c, d, e, f, g, h ] =>
    let t1 := add32 [ h, bigSigma1 e, shaCh e f g, kw.1, kw.2 ]
    let t2 := add32 [ bigSigma0 a, shaMaj a b c ]
    [ add32 [ t1, t2 ], a, b, c, add32 [ d, t1 ], e, f, g ]
  | st => st

/-- Compress one block into the running hash state. -/
def sha256Block (st : List Nat) (block : List Nat) : List Nat :=
  let w := sha256Sched (blockWords block)
  let out := (sha256K.zip w).foldl sha256Round st
  (st.zip out).map (fun p => add32 [ p.1, p.2 ])

/-- `hashlib.sha256(msg).digest()`: 32 bytes. -/
def sha256 (msg : List Nat) : List Nat :=
  let final := (toBlocks (padMsg msg)).foldl sha256Block sha256H0
  (final.map (fun w => [ w >>> 24 % 256, w >>> 16 % 256, w >>> 8 % 256, w % 256 ])).flatten

/-- `hmac.new(key, msg, hashlib.sha256).digest()` (RFC 2104, block size
64). -/
def hmacSha256 (key msg : List Nat) : List Nat :=
  let k0 := if 64 < key.length then sha256 key else key
  let k1 := k0 ++ List.replicate (64 - k0.length) 0
  sha256 ((k1.map (fun b => b ^^^ 92)) ++ sha256 ((k1.map (fun b => b ^^^ 54)) ++ msg))

/-- The RFC 4648 standard base64 alphabet. -/
def b64Alphabet : List Char :=
  cl "ABCDEFGHIJKLMNOPQRSTUVWXYZabcdefghijklmnopqrstuvwxyz0123456789+/"

/-- Alphabet lookup. -/
def b64Char (n : Nat) : Char := b64Alphabet.getD n 'A'

/-- `base64.b64encode` with `=` padding, decoded back to text (the digest
base64 is pure ASCII, so `.decode("utf-8")` is the identity on it). -/
def b64encode : List Nat → List Char
  | [] => []
  | [ a ] => [ b64Char (a / 4), b64Char (a % 4 * 16), '=', '=' ]
  | [ a, b ] => [ b64Char (a / 4), b64Char (a % 4 * 16 + b / 16), b64Char (b % 16 * 4), '=' ]
  | a :: b :: c :: rest =>
    b64Char (a / 4) :: b64Char (a % 4 * 16 + b / 16) ::
      b64Char (b % 16 * 4 + c / 64) :: b64Char (c % 64) :: b64encode rest

/-- `generate_hmac_signature` from `utils/algo.py`: the six fields joined
by `;` in source order (an f-string), HMAC-SHA256 keyed by the UTF-8 bytes
of `secret_key`, base64-encoded. -/
def generate_hmac_signature (host client_id key_id : List Char)
    (timestamp : Nat) (email login_id secret_key : List Char) : List Char :=
  let string_to_sign :=
    host ++ [ ';' ] ++ client_id ++ [ ';' ] ++ key_id ++ [ ';' ] ++
      cl (toString timestamp) ++ [ ';' ] ++ email ++ [ ';' ] ++ login_id
  b64encode (hmacSha256 (encodeStr secret_key) (encodeStr string_to_sign))

/-- `create_headers` from `utils/algo.py`. `int(time.time())` is read once
into the local `timestamp`; this single clock read is the explicit
`timestamp` argument here. The returned Python dict is an
insertion-ordered association list, with the `Authorization` literal
exactly as the source f-string builds it. -/
def create_headers (client_id key_id secret_key host email login_id : List Char)
    (timestamp : Nat) : List (List Char × List Char) :=
  let hmac_signature :=
    generate_hmac_signature host client_id key_id timestamp email login_id secret_key
  [ (cl "x-client-id", client_id),
    (cl "x-key-id", key_id),
    (cl "x-timestamp", cl (toString timestamp)),
    (cl "x-user-email", email),
    (cl "x-user-loginId", login_id),
    (cl "Authorization",
      cl "SEULGI-HMAC-SHA256-V1 SigHeaders=host;x-client-id;x-key-id;x-timestamp,x-user-email,Signature="
        ++ hmac_signature),
    (cl "Content-Type", cl "application/json") ]

/-- Python `dict.update` over string-keyed dicts: upsert each entry of
`upd` into `base` in order (used by `ixigen.py` to merge the auth headers
over the forwarded request headers). -/
def pyUpdate (base upd : List (List Char × List Char)) :
    List (List Char × List Char) :=
  upd.foldl (fun acc kv => assocSet acc kv.1 kv.2) base

/-- Is a payload a byte string (as opposed to an extracted text value)? -/
def payloadIsBytes : Payload → Bool
  | .bytes _ => true
  | .text _ => false

/-- The tag of each yielded pair together with whether its payload is a
byte string. -/
def yieldShapes (ys : List (Bool × Payload)) : List (Bool × Bool) :=
  ys.map (fun y => (y.1, payloadIsBytes y.2))

/-- Do all yields before the last carry the ok tag (failure only in final
position)? -/
def okUntilLast (ys : List (Bool × Payload)) : Bool :=
  ys.dropLast.all (fun y => y.1)

/-- The `status_code` field of a formatted error payload, read back by
parsing the yielded bytes as the SSE frame they are. -/
def yieldStatusCode (y : Bool × Payload) : Option Int :=
  match y.2 with
  | .bytes bs =>
    match parse_json (decodeR bs) with
    | .dict kvs =>
      match pyLookup kvs (cl "status_code") with
      | Option.some (.intV n) => Option.some n
      | _ => Option.none
    | _ => Option.none
  | .text _ => Option.none

/-! ### Observations used to state the claims about the Signer -/

/-- Text after the first occurrence of `pat` (empty when absent). -/
def dropThrough (pat : List Char) : List Char → List Char
  | [] => []
  | c :: rest =>
    if startsWithL pat (c :: rest) then (c :: rest).drop pat.length
    else dropThrough pat rest

/-- Text before the first occurrence of `pat`. -/
def takeUntil (pat : List Char) : List Char → List Char
  | [] => []
  | c :: rest =>
    if startsWithL pat (c :: rest) then [] else c :: takeUntil pat rest

/-- The text of the `SigHeaders=` clause inside an Authorization value:
everything between `SigHeaders=` and the `,Signature=` terminator. -/
def sigHeadersClause (auth : List Char) : List Char :=
  takeUntil (cl ",Signature=") (dropThrough (cl "SigHeaders=") auth)

/-- Split a name list on both separators that occur in the clause. -/
def splitNames (s : List Char) : List (List Char) :=
  s.splitOnP (fun c => c == ';' || c == ',')

/-- The header names the `SigHeaders` clause of an Authorization value
announces. -/
def sigHeaderNames (auth : List Char) : List (List Char) :=
  splitNames (sigHeadersClause auth)

/-- The six signed fields of the string-to-sign, as the header names the
spec says the `SigHeaders` clause must announce, in signing order. -/
def specSignedHeaderNames : List (List Char) :=
  [ cl "host", cl "x-client-id", cl "x-key-id", cl "x-timestamp",
    cl "x-user-email", cl "x-user-loginId" ]

/-- The spec's signature formula (§4.1/§3), stated from the spec's words
to be compared with `generate_hmac_signature`: the six fields joined by
`;` in the fixed order host, client_id, key_id, timestamp, email,
login_id; HMAC-SHA256 keyed by the UTF-8 bytes of the secret's textual
form; standard-alphabet base64 of the raw digest. -/
def spec_signature (host client_id key_id : List Char) (timestamp : Nat)
    (email login_id secret_key : List Char) : List Char :=
  let fields :=
    [ host, client_id, key_id, cl (toString timestamp), email, login_id ]
  b64encode (hmacSha256 (encodeStr secret_key)
    (encodeStr (fields.intersperse [ ';' ]).flatten))

/-! ### Observations used to state the claims about the Extractor -/

/-- Did the computation succeed (no Python exception)? -/
def exOk {α : Type} : Except PyEx α → Bool
  | .ok _ => true
  | .error _ => false

/-- The payload shapes on which `get_text` completes without raising: the
receiver must be a dict, and its `choices` entry (defaulted to `[{}]`)
must be either a list whose first element is a dict, or falsy. Read off
the code's access pattern; proved an exact characterization below. -/
def getTextSafe : PyVal → Bool
  | .dict kvs =>
    match (pyLookup kvs (cl "choices")).getD (.list [ .dict [] ]) with
    | .list (.dict _ :: _) => true
    | c => !pyTruthy c
  | _ => false

/-- Whether a given `delta` value makes `get_text` return a string: a
non-dict `delta` yields the empty string, a dict yields its `content`
member defaulted to the empty string, which must then be a string. -/
def deltaContentStrOk : PyVal → Bool
  | .dict dkvs =>
    match (pyLookup dkvs (cl "content")).getD (.str []) with
    | .str _ => true
    | _ => false
  | _ => true

/-- Whether the `content` member `get_text` would return is absent or a
string (over the shapes `getTextSafe` admits). -/
def contentStrOk : PyVal → Bool
  | .dict kvs =>
    match (pyLookup kvs (cl "choices")).getD (.list [ .dict [] ]) with
    | .list (.dict fkvs :: _) =>
      deltaContentStrOk ((pyLookup fkvs (cl "delta")).getD (.dict []))
    | _ => true
  | _ => true

/-- The payload rule exactly as claim C7 words it: the substring after the
first occurrence of the six-character marker `"data: "` anywhere on the
frame, parsed as JSON, degrading to the empty object on parse failure.
Stated from the spec's words, to be compared with `parse_json`. -/
def spec_payload_first_occurrence (frame : List Char) : PyVal :=
  (loads (dropThrough (cl "data: ") frame)).getD (.dict [])

/-- Python `isinstance(v, dict)`. -/
def isDictV : PyVal → Bool
  | .dict _ => true
  | _ => false

/-- Re-suffix each emitted piece with the frame delimiter and concatenate
(the reconstruction view of claim C8). -/
def joinPieces (ps : List (List Char)) : List Char :=
  (ps.map (fun p => p ++ cl "\n\n")).flatten

/-- The leftover buffer after the splitter loop absorbs the given byte
chunks. -/
def finalBuf (bss : List (List Nat)) : List Char :=
  (feeds [] (bss.map decodeR)).2

/-! ### Shared lemmas about header dictionaries -/

/-- Looking up a key right after upserting it yields the new value. -/
theorem assocGet_assocSet_same {α : Type} (kvs : List (List Char × α))
    (k : List Char) (v : α) :
    assocGet (assocSet kvs k v) k = Option.some v := by
  induction kvs with
  | nil => simp [assocSet, assocGet]
  | cons kv rest ih =>
    simp only [assocSet]
    by_cases hk : kv.1 == k
    · simp [hk, assocGet]
    · simp [hk, assocGet, ih]

/-- Claim C10: for every input, `create_headers` returns a dict of exactly
seven entries — x-client-id, x-key-id, x-timestamp, x-user-email,
x-user-loginId, Authorization and Content-Type, in insertion order — its
Content-Type value is always `application/json`, and after merging the set
over any forwarded headers with `dict.update` (as `ixigen.py` does),
`Content-Type` still maps to `application/json`. -/
theorem create_headers_shape (c k s h e l : List Char) (t : Nat)
    (fwd : List (List Char × List Char)) :
    (create_headers c k s h e l t).map Prod.fst =
      [ cl "x-client-id", cl "x-key-id", cl "x-timestamp", cl "x-user-email",
        cl "x-user-loginId", cl "Authorization", cl "Content-Type" ]
    ∧ assocGet (create_headers c k s h e l t) (cl "Content-Type") =
        Option.some (cl "application/json")
    ∧ assocGet (pyUpdate fwd (create_headers c k s h e l t))
        (cl "Content-Type") = Option.some (cl "application/json") := by
  refine ⟨rfl, rfl, ?_⟩
  show assocGet (List.foldl _ fwd _) _ = _
  simp only [create_headers, List.foldl_cons, List.foldl_nil]
  exact assocGet_assocSet_same _ _ _

/-- Claim C6: the Signer's signature is the standard-alphabet base64 of
HMAC-SHA256 over `host;client_id;key_id;timestamp;email;login_id` keyed by
the UTF-8 bytes of the secret, exactly the spec's formula; and because
`create_headers` reads the clock once, the emitted `x-timestamp` header
always shows the same timestamp that is signed inside the Authorization
value. Determinism for a fixed timestamp is immediate since the embedding
is a pure function of the explicit timestamp argument. -/
theorem signer_matches_spec (h c k : List Char) (t : Nat)
    (e l s : List Char) :
    generate_hmac_signature h c k t e l s = spec_signature h c k t e l s
    ∧ assocGet (create_headers c k s h e l t) (cl "x-timestamp") =
        Option.some (cl (toString t))
    ∧ assocGet (create_headers c k s h e l t) (cl "Authorization") =
        Option.some
          (cl "SEULGI-HMAC-SHA256-V1 SigHeaders=host;x-client-id;x-key-id;x-timestamp,x-user-email,Signature="
            ++ spec_signature h c k t e l s) := by
  have h1 : generate_hmac_signature h c k t e l s = spec_signature h c k t e l s := by
    simp [generate_hmac_signature, spec_signature, List.intersperse, List.flatten]
  refine ⟨h1, rfl, ?_⟩
  rw [← h1]
  rfl

/-- Claim C2: what the code actually emits. For every input, the
`SigHeaders` clause of the produced Authorization value announces exactly
the five names `host;x-client-id;x-key-id;x-timestamp,x-user-email` (with
a comma as the fourth separator) — not the six signed fields: the
`x-user-loginId` field of the string-to-sign is missing from the clause. -/
theorem sigheaders_clause_actual (c k s h e l : List Char) (t : Nat) :
    sigHeaderNames ((assocGet (create_headers c k s h e l t)
        (cl "Authorization")).getD []) =
      [ cl "host", cl "x-client-id", cl "x-key-id", cl "x-timestamp",
        cl "x-user-email" ]
    ∧ specSignedHeaderNames ≠
      [ cl "host", cl "x-client-id", cl "x-key-id", cl "x-timestamp",
        cl "x-user-email" ] := by
  exact ⟨rfl, by decide⟩

/-! ### Lemmas about `get_text` -/

/-- `get_text` completes without raising exactly on the shapes
`getTextSafe` describes. -/
theorem get_text_exOk (obj : PyVal) : exOk (get_text obj) = getTextSafe obj := by
  cases obj with
  | dict kvs =>
    simp only [get_text, getTextSafe, pyGet, bind, Except.bind]
    cases hc : (pyLookup kvs (cl "choices")).getD (.list [ .dict [] ]) with
    | none => simp [pyTruthy, exOk, pure, Except.pure]
    | bool b => cases b <;>
        simp [pyTruthy, pySubscriptZero, exOk, pure, Except.pure]
    | intV n => by_cases hn : n = 0 <;>
        simp [pyTruthy, hn, pySubscriptZero, exOk, pure, Except.pure]
    | floatV lex => by_cases hz : floatLexIsZero lex <;>
        simp [pyTruthy, hz, pySubscriptZero, exOk, pure, Except.pure]
    | str s => cases s <;>
        simp [pyTruthy, pySubscriptZero, pyGet, exOk, pure, Except.pure]
    | list xs =>
      cases xs with
      | nil => simp [pyTruthy, exOk, pure, Except.pure]
      | cons x r =>
        cases x <;>
          simp only [pyTruthy, List.isEmpty_cons, Bool.not_false, if_false,
            Bool.not_true, pySubscriptZero, pyGet, exOk, pure, Except.pure,
            Bool.false_eq_true, reduceIte] <;>
          first
          | rfl
          | (cases hd : (pyLookup _ (cl "delta")).getD (.dict []) <;>
              · simp [exOk, pure, Except.pure])
    | dict kvs2 => cases kvs2 <;>
        simp [pyTruthy, pySubscriptZero, exOk, pure, Except.pure]
  | none => simp [get_text, getTextSafe, pyGet, exOk, bind, Except.bind]
  | bool b => simp [get_text, getTextSafe, pyGet, exOk, bind, Except.bind]
  | intV n => simp [get_text, getTextSafe, pyGet, exOk, bind, Except.bind]
  | floatV lex => simp [get_text, getTextSafe, pyGet, exOk, bind, Except.bind]
  | str s => simp [get_text, getTextSafe, pyGet, exOk, bind, Except.bind]
  | list xs => simp [get_text, getTextSafe, pyGet, exOk, bind, Except.bind]

/-- On safe shapes whose `content` member is absent or a string,
`get_text` returns a string. -/
theorem get_text_str (obj : PyVal) (h1 : getTextSafe obj = true)
    (h2 : contentStrOk obj = true) : ∃ t, get_text obj = .ok (.str t) := by
  cases obj with
  | dict kvs =>
    simp only [getTextSafe] at h1
    simp only [get_text, pyGet, bind, Except.bind]
    cases hc : (pyLookup kvs (cl "choices")).getD (.list [ .dict [] ]) with
    | none => exact ⟨[], rfl⟩
    | bool b =>
      rw [hc] at h1
      cases b with
      | false => exact ⟨[], rfl⟩
      | true => simp [pyTruthy] at h1
    | intV n =>
      rw [hc] at h1
      by_cases hn : n = 0
      · subst hn
        exact ⟨[], rfl⟩
      · simp [pyTruthy, hn] at h1
    | floatV lex =>
      rw [hc] at h1
      by_cases hz : floatLexIsZero lex
      · simp only [pyTruthy, hz, Bool.not_true, reduceIte]
        exact ⟨[], rfl⟩
      · simp [pyTruthy, hz] at h1
    | str s =>
      rw [hc] at h1
      cases s with
      | nil => exact ⟨[], rfl⟩
      | cons c cs => simp [pyTruthy] at h1
    | list xs =>
      cases xs with
      | nil => exact ⟨[], rfl⟩
      | cons x r =>
        cases x with
        | dict fkvs =>
          have h2a : deltaContentStrOk
              ((pyLookup fkvs (cl "delta")).getD (.dict [])) = true := by
            simpa only [contentStrOk, hc] using h2
          simp only [pyTruthy, List.isEmpty_cons, Bool.not_false,
            Bool.false_eq_true, reduceIte, pySubscriptZero, pyGet, bind,
            Except.bind]
          cases hd : (pyLookup fkvs (cl "delta")).getD (.dict []) with
          | dict dkvs =>
            rw [hd] at h2a
            simp only [deltaContentStrOk] at h2a
            cases hct : (pyLookup dkvs (cl "content")).getD (.str []) with
            | str s =>
              refine ⟨s, ?_⟩
              show Except.ok ((pyLookup dkvs (cl "content")).getD (PyVal.str []))
                = Except.ok (PyVal.str s)
              rw [hct]
            | none => rw [hct] at h2a; simp at h2a
            | bool b => rw [hct] at h2a; simp at h2a
            | intV n => rw [hct] at h2a; simp at h2a
            | floatV lex => rw [hct] at h2a; simp at h2a
            | list ys => rw [hct] at h2a; simp at h2a
            | dict kvs3 => rw [hct] at h2a; simp at h2a
          | none => exact ⟨[], rfl⟩
          | bool b => exact ⟨[], rfl⟩
          | intV n => exact ⟨[], rfl⟩
          | floatV lex => exact ⟨[], rfl⟩
          | str s => exact ⟨[], rfl⟩
          | list ys => exact ⟨[], rfl⟩
        | none => simp [hc, pyTruthy] at h1
        | bool b => simp [hc, pyTruthy] at h1
        | intV n => simp [hc, pyTruthy] at h1
        | floatV lex => simp [hc, pyTruthy] at h1
        | str s => simp [hc, pyTruthy] at h1
        | list ys => simp [hc, pyTruthy] at h1
    | dict kvs2 =>
      rw [hc] at h1
      cases kvs2 with
      | nil => exact ⟨[], rfl⟩
      | cons kv rest => simp [pyTruthy] at h1
  | none => simp [getTextSafe] at h1
  | bool b => simp [getTextSafe] at h1
  | intV n => simp [getTextSafe] at h1
  | floatV lex => simp [getTextSafe] at h1
  | str s => simp [getTextSafe] at h1
  | list xs => simp [getTextSafe] at h1

/-! ### Claims C5, C7, C3 -/

/-- Claim C5 (amended): the Event Payload Extractor never raises exactly
when the parsed payload is an object whose `choices` entry (defaulted to
`[{}]`) is falsy or a list headed by an object — in particular it cannot
raise on the empty string, non-JSON text, or a frame without the
`data: ` prefix, since `parse_json` then yields the empty object — and
whenever it succeeds with a `content` member that is absent or a string,
its result is a string. -/
theorem extract_safety :
    (∀ s : List Char, exOk (extract s) = getTextSafe (parse_json s))
    ∧ (∀ s : List Char, getTextSafe (parse_json s) = true →
        contentStrOk (parse_json s) = true → ∃ t, extract s = .ok (.str t)) :=
  ⟨fun s => get_text_exOk (parse_json s),
   fun s h1 h2 => get_text_str (parse_json s) h1 h2⟩

/-- Witness for `extract_safety` at the frame `data: {"choices": []}`. -/
theorem extract_safety_witness :
    exOk (extract (cl "data: \x7b\"choices\": []\x7d")) =
      getTextSafe (parse_json (cl "data: \x7b\"choices\": []\x7d"))
    ∧ ∃ t, extract (cl "data: \x7b\"choices\": []\x7d") = .ok (.str t) :=
  ⟨extract_safety.1 _, extract_safety.2 _ (by rfl) (by rfl)⟩

/-- Claim C5 counterexample: on the frame `data: 5`, whose payload is
valid JSON but not an object, the extractor raises `AttributeError`
(`int` has no `get`); and a present non-string `content` member is
returned verbatim, so the result is not always a string. -/
theorem extract_raises_on_nonobject :
    extract (cl "data: 5") = .error (cl "AttributeError")
    ∧ extract
        (cl "data: \x7b\"choices\": [\x7b\"delta\": \x7b\"content\": 5\x7d\x7d]\x7d")
        = .ok (.intV 5) :=
  ⟨rfl, rfl⟩

/-- Claim C7 (amended): the payload is the JSON parse of the text after
the six-character prefix only when the frame starts with `data: ` —
otherwise, even when `data: ` occurs later on the frame, the payload is
the empty object — and the extracted text is `choices[0].delta.content`
read with defaults: empty when `choices` is missing or empty, when
`delta` is not an object, or when `content` is absent. -/
theorem parse_json_payload_rule :
    (∀ frame : List Char, startsWithL (cl "data: ") frame = false →
      parse_json frame = .dict [] ∧ extract frame = .ok (.str []))
    ∧ (∀ frame : List Char, startsWithL (cl "data: ") frame = true →
      parse_json frame = (loads (frame.drop 6)).getD (.dict []))
    ∧ (∀ kvs, pyLookup kvs (cl "choices") = Option.none →
      get_text (.dict kvs) = .ok (.str []))
    ∧ (∀ kvs, pyLookup kvs (cl "choices") = Option.some (.list []) →
      get_text (.dict kvs) = .ok (.str []))
    ∧ (∀ kvs fkvs r d, pyLookup kvs (cl "choices") =
        Option.some (.list (.dict fkvs :: r)) →
      pyLookup fkvs (cl "delta") = Option.some d → isDictV d = false →
      get_text (.dict kvs) = .ok (.str []))
    ∧ (∀ kvs fkvs r dkvs, pyLookup kvs (cl "choices") =
        Option.some (.list (.dict fkvs :: r)) →
      pyLookup fkvs (cl "delta") = Option.some (.dict dkvs) →
      pyLookup dkvs (cl "content") = Option.none →
      get_text (.dict kvs) = .ok (.str [])) := by
  refine ⟨?_, ?_, ?_, ?_, ?_, ?_⟩
  · intro frame h
    constructor
    · simp [parse_json, h]
    · simp only [extract]
      have hp : parse_json frame = .dict [] := by simp [parse_json, h]
      rw [hp]
      rfl
  · intro frame h
    by_cases hj : is_json (frame.drop 6)
    · simp [parse_json, h, hj]
    · have hl : loads (frame.drop 6) = Option.none := by
        have := hj
        simp only [is_json, Option.isSome] at this
        cases hE : loads (frame.drop 6) with
        | none => rfl
        | some v => rw [hE] at this; simp at this
      simp [parse_json, h, hj, hl]
  · intro kvs h
    simp only [get_text, pyGet, bind, Except.bind]
    rw [h]
    rfl
  · intro kvs h
    simp only [get_text, pyGet, bind, Except.bind]
    rw [h]
    rfl
  · intro kvs fkvs r d hch hd hnd
    simp only [get_text, pyGet, bind, Except.bind]
    rw [hch]
    simp only [Option.getD_some, pyTruthy, List.isEmpty_cons, Bool.not_false,
      Bool.false_eq_true, reduceIte, pySubscriptZero, pyGet]
    rw [hd]
    simp only [Option.getD_some]
    cases d with
    | dict dkvs => simp [isDictV] at hnd
    | none => rfl
    | bool b => rfl
    | intV n => rfl
    | floatV lex => rfl
    | str s => rfl
    | list ys => rfl
  · intro kvs fkvs r dkvs hch hd hct
    simp only [get_text, pyGet, bind, Except.bind]
    rw [hch]
    simp only [Option.getD_some, pyTruthy, List.isEmpty_cons, Bool.not_false,
      Bool.false_eq_true, reduceIte, pySubscriptZero, pyGet]
    rw [hd]
    simp only [Option.getD_some]
    rw [hct]
    rfl

/-- Witness for `parse_json_payload_rule` at concrete inputs. -/
theorem parse_json_payload_rule_witness :
    (parse_json (cl "x") = .dict [] ∧ extract (cl "x") = .ok (.str []))
    ∧ parse_json (cl "data: 7") = (loads ((cl "data: 7").drop 6)).getD (.dict [])
    ∧ get_text (.dict []) = .ok (.str []) :=
  ⟨parse_json_payload_rule.1 _ (by rfl),
   parse_json_payload_rule.2.1 _ (by rfl),
   parse_json_payload_rule.2.2.1 [] (by rfl)⟩

/-- Claim C7 counterexample: a frame whose `data: ` marker follows an
`event:` line. The claim's first-occurrence payload rule extracts `hi`,
but the code's starts-with rule parses the empty object and extracts the
empty string. -/
theorem parse_json_not_first_occurrence :
    extract
      (cl "event: x\ndata: \x7b\"choices\": [\x7b\"delta\": \x7b\"content\": \"hi\"\x7d\x7d]\x7d\n\n")
      = .ok (.str [])
    ∧ get_text (spec_payload_first_occurrence
        (cl "event: x\ndata: \x7b\"choices\": [\x7b\"delta\": \x7b\"content\": \"hi\"\x7d\x7d]\x7d\n\n"))
      = .ok (.str (cl "hi"))
    ∧ cl "hi" ≠ ([] : List Char) :=
  ⟨rfl, rfl, by decide⟩

/-- Claim C3 (amended): per forwarded frame,
`parse_sse_chunk_publish_to_redis` publishes exactly one message — the
JSON object with type `answer` and the extracted content, on the channel
`sse.response:<request-id>` — precisely when the extracted text is truthy;
when the extracted text is empty (or otherwise falsy) nothing is
published. -/
theorem publish_iff_truthy (xid : List Char) (chunk : List Nat)
    (pubs : List (List Char × List Char)) (t : PyVal)
    (h : parse_sse_chunk_publish_to_redis xid chunk = .ok (pubs, t)) :
    pubs = if pyTruthy t then
        [ (cl "sse.response:" ++ xid,
           pyDumps (.dict [ (cl "type", .str (cl "answer")),
                            (cl "content", t) ])) ]
      else [] := by
  simp only [parse_sse_chunk_publish_to_redis, bind, Except.bind] at h
  cases hg : get_text (parse_json (decodeR chunk)) with
  | error e => rw [hg] at h; cases h
  | ok v =>
    rw [hg] at h
    by_cases ht : pyTruthy v
    · simp only [ht, reduceIte, pure, Except.pure, Except.ok.injEq,
        Prod.mk.injEq] at h
      rw [← h.1, ← h.2]
      simp [ht]
    · rw [Bool.not_eq_true] at ht
      simp only [ht, Bool.false_eq_true, reduceIte, pure, Except.pure,
        Except.ok.injEq, Prod.mk.injEq] at h
      rw [← h.1, ← h.2]
      simp [ht]

/-- Witness for `publish_iff_truthy` on a frame with content `Hi`. -/
theorem publish_iff_truthy_witness :
    [ (cl "sse.response:r1",
       cl "\x7b\"type\": \"answer\", \"content\": \"Hi\"\x7d") ] =
      if pyTruthy (.str (cl "Hi")) then
        [ (cl "sse.response:" ++ cl "r1",
           pyDumps (.dict [ (cl "type", .str (cl "answer")),
                            (cl "content", .str (cl "Hi")) ])) ]
      else [] :=
  publish_iff_truthy (cl "r1")
    (encodeStr
      (cl "data: \x7b\"choices\": [\x7b\"delta\": \x7b\"content\": \"Hi\"\x7d\x7d]\x7d\n\n"))
    _ _ rfl

/-- Claim C3 counterexample: a non-discarded frame whose extracted text is
the empty string produces no publish at all — publication is conditional
on non-empty text, not unconditional. -/
theorem publish_skipped_on_empty :
    parse_sse_chunk_publish_to_redis (cl "r1")
      (encodeStr
        (cl "data: \x7b\"choices\": [\x7b\"delta\": \x7b\"content\": \"\"\x7d\x7d]\x7d\n\n"))
      = .ok ([], .str []) :=
  rfl

/-! ### Lemmas about the splitter -/

/-- Unfolding of `joinPieces` on a cons. -/
theorem joinPieces_cons (p : List Char) (ps : List (List Char)) :
    joinPieces (p :: ps) = p ++ cl "\n\n" ++ joinPieces ps := by
  simp [joinPieces]

/-- Re-suffixing every complete piece and appending the trailing piece
reconstructs the split text exactly. -/
theorem splitNN_reconstruct (z : List Char) :
    joinPieces (splitNN z).1 ++ (splitNN z).2 = z := by
  induction z using splitNN.induct with
  | case1 => simp [splitNN, joinPieces]
  | case2 rest ih =>
    rw [splitNN.eq_2]
    simp only [joinPieces_cons, List.nil_append, List.append_assoc] at *
    rw [ih]
    rfl
  | case3 c rest h p hp ih =>
    have hp1 : (splitNN rest).1 = [] := hp
    rw [splitNN.eq_3 c rest h, hp1]
    rw [hp1] at ih
    simp only [joinPieces, List.map_nil, List.flatten_nil, List.nil_append] at ih ⊢
    rw [ih]
  | case4 c rest h p s ss hs ih =>
    have hs1 : (splitNN rest).1 = s :: ss := hs
    rw [splitNN.eq_3 c rest h, hs1]
    rw [hs1] at ih
    simp only [joinPieces_cons, List.cons_append, List.append_assoc] at ih ⊢
    rw [ih]

/-- A split with no complete piece leaves the whole text in the buffer. -/
theorem splitNN_fstNil {z : List Char} (h : (splitNN z).1 = []) :
    (splitNN z).2 = z := by
  have hr := splitNN_reconstruct z
  rw [h] at hr
  simpa [joinPieces] using hr

/-- The trailing piece of a split contains no complete piece itself. -/
theorem splitNN_last_trivial (z : List Char) :
    splitNN ((splitNN z).2) = ([], (splitNN z).2) := by
  induction z using splitNN.induct with
  | case1 => simp [splitNN]
  | case2 rest ih =>
    rw [splitNN.eq_2]
    exact ih
  | case3 c rest h p hp ih =>
    have hp1 : (splitNN rest).1 = [] := hp
    have h2 : (splitNN rest).2 = rest := splitNN_fstNil hp1
    rw [splitNN.eq_3 c rest h, hp1]
    simp only [h2]
    rw [splitNN.eq_3 c rest h, hp1]
    simp [h2]
  | case4 c rest h p s ss hs ih =>
    have hs1 : (splitNN rest).1 = s :: ss := hs
    rw [splitNN.eq_3 c rest h, hs1]
    exact ih

/-- Splitting text extended on the right: the pieces of the original text
stay, and the old trailing piece is re-split together with the new
text. -/
theorem splitNN_append (x : List Char) : ∀ y : List Char,
    splitNN (x ++ y) =
      ((splitNN x).1 ++ (splitNN ((splitNN x).2 ++ y)).1,
       (splitNN ((splitNN x).2 ++ y)).2) := by
  induction x using splitNN.induct with
  | case1 => intro y; simp [splitNN]
  | case2 rest ih =>
    intro y
    have hstep : ('\n' :: '\n' :: rest) ++ y = '\n' :: '\n' :: (rest ++ y) := rfl
    rw [hstep, splitNN.eq_2, splitNN.eq_2, ih y]
    simp
  | case3 c rest h p hp ih =>
    intro y
    have hp1 : (splitNN rest).1 = [] := hp
    have h2 : (splitNN rest).2 = rest := splitNN_fstNil hp1
    rw [splitNN.eq_3 c rest h, hp1]
    simp only [h2, List.nil_append]
  | case4 c rest h p s ss hs ih =>
    intro y
    have hs1 : (splitNN rest).1 = s :: ss := hs
    have hcons : (c :: rest) ++ y = c :: (rest ++ y) := rfl
    have hnonempty : rest ≠ [] := by
      intro hr
      rw [hr] at hs1
      simp [splitNN] at hs1
    have hne : ∀ r1, c = '\n' → rest ++ y = '\n' :: r1 → False := by
      intro r1 hc hr
      cases rest with
      | nil => exact hnonempty rfl
      | cons r0 rest' =>
        have hr0 : r0 = '\n' := by
          have := congrArg (fun l => List.headD l ' ') hr
          simpa using this
        exact h rest' hc (by rw [hr0])
    rw [hcons, splitNN.eq_3 c (rest ++ y) hne, ih y,
      splitNN.eq_3 c rest h, hs1]
    simp

/-- The splitter loop over chunks equals one split of the concatenated
text, provided the starting buffer holds no delimiter. -/
theorem feeds_eq_splitNN : ∀ (cs : List (List Char)) (buf : List Char),
    splitNN buf = ([], buf) → feeds buf cs = splitNN (buf ++ cs.flatten) := by
  intro cs
  induction cs with
  | nil =>
    intro buf hb
    simp [feeds, hb]
  | cons c cs' ih =>
    intro buf hb
    simp only [feeds, List.flatten_cons]
    rw [ih _ (splitNN_last_trivial (buf ++ c)), ← List.append_assoc,
      splitNN_append (buf ++ c) cs'.flatten]

/-- The trailing buffer of a split never contains the delimiter. -/
theorem splitNN_snd_no_delim (z : List Char) :
    containsSub (cl "\n\n") (splitNN z).2 = false := by
  induction z using splitNN.induct with
  | case1 => simp [splitNN, containsSub, cl]
  | case2 rest ih =>
    rw [splitNN.eq_2]
    exact ih
  | case3 c rest h p hp ih =>
    have hp1 : (splitNN rest).1 = [] := hp
    have h2 : (splitNN rest).2 = rest := splitNN_fstNil hp1
    rw [splitNN.eq_3 c rest h, hp1]
    simp only [containsSub, h2]
    rw [h2] at ih
    rw [ih]
    simp only [Bool.or_false]
    cases hcn : (c == '\n') with
    | false =>
      have hcne : ('\n' : Char) ≠ c := by
        intro heq
        rw [← heq] at hcn
        simp at hcn
      simp [cl, startsWithL, hcne]
    | true =>
      have hc : c = '\n' := by simpa using hcn
      cases rest with
      | nil => simp [cl, startsWithL]
      | cons r0 rest' =>
        have hr0 : (('\n' : Char) == r0) = false := by
          by_cases hr : r0 = '\n'
          · exact absurd (h rest' hc (by rw [hr])) (fun f => f)
          · simpa using fun hEq => hr hEq.symm
        simp [cl, startsWithL, hcn, hr0]
  | case4 c rest h p s ss hs ih =>
    have hs1 : (splitNN rest).1 = s :: ss := hs
    rw [splitNN.eq_3 c rest h, hs1]
    exact ih

/-! ### Lemmas about the decoder -/

/-- Any two fuels above the input length decode identically, so
`decodeR`'s canonical `length + 1` fuel is as good as any other. -/
theorem decodeRAux_stable : ∀ (f1 f2 : Nat) (l : List Nat),
    l.length < f1 → l.length < f2 → decodeRAux f1 l = decodeRAux f2 l := by
  intro f1
  induction f1 with
  | zero =>
    intro f2 l h1 h2
    omega
  | succ f ih =>
    intro f2 l h1 h2
    cases f2 with
    | zero => omega
    | succ g =>
      cases l with
      | nil => rfl
      | cons b rest =>
        have hlen : rest.length < f := by
          simp only [List.length_cons] at h1
          omega
        have hleng : rest.length < g := by
          simp only [List.length_cons] at h2
          omega
        by_cases hb1 : b < 128
        · simp only [decodeRAux, hb1, if_true]
          rw [ih g rest hlen hleng]
        · by_cases hb2 : (194 ≤ b && b ≤ 223) = true
          · cases rest with
            | nil => simp only [decodeRAux, hb1, hb2, if_true, if_false, Bool.false_eq_true]
            | cons b2 rest2 =>
              have hl2 : rest2.length < f := by
                simp only [List.length_cons] at hlen
                omega
              have hl2g : rest2.length < g := by
                simp only [List.length_cons] at hleng
                omega
              by_cases hc : contOk b2 = true
              · simp only [decodeRAux, hb1, hb2, hc, if_true, if_false, Bool.false_eq_true]
                rw [ih g rest2 hl2 hl2g]
              · simp only [decodeRAux, hb1, hb2, hc, if_true, if_false,
                  Bool.false_eq_true]
                rw [ih g (b2 :: rest2) hlen hleng]
          · by_cases hb3 : (224 ≤ b && b ≤ 239) = true
            · cases rest with
              | nil => simp only [decodeRAux, hb1, hb2, hb3, if_true, if_false, Bool.false_eq_true]
              | cons b2 rest2 =>
                have hl2 : rest2.length < f := by
                  simp only [List.length_cons] at hlen
                  omega
                have hl2g : rest2.length < g := by
                  simp only [List.length_cons] at hleng
                  omega
                by_cases hc2 : cont2Ok3 b b2 = true
                · cases rest2 with
                  | nil =>
                    simp only [decodeRAux, hb1, hb2, hb3, hc2, if_true, if_false, Bool.false_eq_true]
                  | cons b3 rest3 =>
                    have hl3 : rest3.length < f := by
                      simp only [List.length_cons] at hl2
                      omega
                    have hl3g : rest3.length < g := by
                      simp only [List.length_cons] at hl2g
                      omega
                    by_cases hc3 : contOk b3 = true
                    · simp only [decodeRAux, hb1, hb2, hb3, hc2, hc3, if_true,
                        if_false, Bool.false_eq_true]
                      rw [ih g rest3 hl3 hl3g]
                    · simp only [decodeRAux, hb1, hb2, hb3, hc2, hc3, if_true,
                        if_false, Bool.false_eq_true]
                      rw [ih g (b3 :: rest3) hl2 hl2g]
                · simp only [decodeRAux, hb1, hb2, hb3, hc2, if_true, if_false,
                    Bool.false_eq_true]
                  rw [ih g (b2 :: rest2) hlen hleng]
            · by_cases hb4 : (240 ≤ b && b ≤ 244) = true
              · cases rest with
                | nil =>
                  simp only [decodeRAux, hb1, hb2, hb3, hb4, if_true, if_false, Bool.false_eq_true]
                | cons b2 rest2 =>
                  have hl2 : rest2.length < f := by
                    simp only [List.length_cons] at hlen
                    omega
                  have hl2g : rest2.length < g := by
                    simp only [List.length_cons] at hleng
                    omega
                  by_cases hc2 : cont2Ok4 b b2 = true
                  · cases rest2 with
                    | nil =>
                      simp only [decodeRAux, hb1, hb2, hb3, hb4, hc2, if_true,
                        if_false, Bool.false_eq_true]
                    | cons b3 rest3 =>
                      have hl3 : rest3.length < f := by
                        simp only [List.length_cons] at hl2
                        omega
                      have hl3g : rest3.length < g := by
                        simp only [List.length_cons] at hl2g
                        omega
                      by_cases hc3 : contOk b3 = true
                      · cases rest3 with
                        | nil =>
                          simp only [decodeRAux, hb1, hb2, hb3, hb4, hc2, hc3,
                            if_true, if_false, Bool.false_eq_true]
                        | cons b4 rest4 =>
                          have hl4 : rest4.length < f := by
                            simp only [List.length_cons] at hl3
                            omega
                          have hl4g : rest4.length < g := by
                            simp only [List.length_cons] at hl3g
                            omega
                          by_cases hc4 : contOk b4 = true
                          · simp only [decodeRAux, hb1, hb2, hb3, hb4, hc2, hc3,
                              hc4, if_true, if_false, Bool.false_eq_true]
                            rw [ih g rest4 hl4 hl4g]
                          · simp only [decodeRAux, hb1, hb2, hb3, hb4, hc2, hc3,
                              hc4, if_true, if_false, Bool.false_eq_true]
                            rw [ih g (b4 :: rest4) hl3 hl3g]
                      · simp only [decodeRAux, hb1, hb2, hb3, hb4, hc2, hc3,
                          if_true, if_false, Bool.false_eq_true]
                        rw [ih g (b3 :: rest3) hl2 hl2g]
                  · simp only [decodeRAux, hb1, hb2, hb3, hb4, hc2, if_true,
                      if_false, Bool.false_eq_true]
                    rw [ih g (b2 :: rest2) hlen hleng]
              · simp only [decodeRAux, hb1, hb2, hb3, hb4, if_true, if_false, Bool.false_eq_true]
                rw [ih g rest hlen hleng]

/-- One decoding step: ASCII byte. -/
theorem decodeRAux_ascii (f b : Nat) (l : List Nat) (hb : b < 128) :
    decodeRAux (f + 1) (b :: l) = Char.ofNat b :: decodeRAux f l := by
  simp only [decodeRAux, hb, if_true]

/-- One decoding step: well-formed two-byte sequence. -/
theorem decodeRAux_two (f b b2 : Nat) (l : List Nat) (hb1 : ¬ b < 128)
    (hb2 : (194 ≤ b && b ≤ 223) = true) (hc : contOk b2 = true) :
    decodeRAux (f + 1) (b :: b2 :: l) =
      Char.ofNat ((b - 192) * 64 + (b2 - 128)) :: decodeRAux f l := by
  simp only [decodeRAux, hb1, hb2, hc, if_true, if_false, Bool.false_eq_true]

/-- One decoding step: well-formed three-byte sequence. -/
theorem decodeRAux_three (f b b2 b3 : Nat) (l : List Nat) (hb1 : ¬ b < 128)
    (hb2 : ¬ (194 ≤ b && b ≤ 223) = true)
    (hb3 : (224 ≤ b && b ≤ 239) = true) (hc2 : cont2Ok3 b b2 = true)
    (hc3 : contOk b3 = true) :
    decodeRAux (f + 1) (b :: b2 :: b3 :: l) =
      Char.ofNat ((b - 224) * 4096 + (b2 - 128) * 64 + (b3 - 128)) ::
        decodeRAux f l := by
  simp only [decodeRAux, hb1, hb2, hb3, hc2, hc3, if_true, if_false,
    Bool.false_eq_true]

/-- One decoding step: well-formed four-byte sequence. -/
theorem decodeRAux_four (f b b2 b3 b4 : Nat) (l : List Nat) (hb1 : ¬ b < 128)
    (hb2 : ¬ (194 ≤ b && b ≤ 223) = true)
    (hb3 : ¬ (224 ≤ b && b ≤ 239) = true)
    (hb4 : (240 ≤ b && b ≤ 244) = true) (hc2 : cont2Ok4 b b2 = true)
    (hc3 : contOk b3 = true) (hc4 : contOk b4 = true) :
    decodeRAux (f + 1) (b :: b2 :: b3 :: b4 :: l) =
      Char.ofNat ((b - 240) * 262144 + (b2 - 128) * 4096 +
        (b3 - 128) * 64 + (b4 - 128)) :: decodeRAux f l := by
  simp only [decodeRAux, hb1, hb2, hb3, hb4, hc2, hc3, hc4, if_true, if_false,
    Bool.false_eq_true]

/-- `decodeR` on an ASCII byte. -/
theorem decodeR_ascii (b : Nat) (l : List Nat) (hb : b < 128) :
    decodeR (b :: l) = Char.ofNat b :: decodeR l := by
  simp only [decodeR, List.length_cons]
  rw [decodeRAux_ascii _ _ _ hb]

/-- `decodeR` on a well-formed two-byte sequence. -/
theorem decodeR_two (b b2 : Nat) (l : List Nat) (hb1 : ¬ b < 128)
    (hb2 : (194 ≤ b && b ≤ 223) = true) (hc : contOk b2 = true) :
    decodeR (b :: b2 :: l) =
      Char.ofNat ((b - 192) * 64 + (b2 - 128)) :: decodeR l := by
  simp only [decodeR, List.length_cons]
  rw [decodeRAux_two _ _ _ _ hb1 hb2 hc,
    decodeRAux_stable (l.length + 1 + 1) (l.length + 1) l (by omega) (by omega)]

/-- `decodeR` on a well-formed three-byte sequence. -/
theorem decodeR_three (b b2 b3 : Nat) (l : List Nat) (hb1 : ¬ b < 128)
    (hb2 : ¬ (194 ≤ b && b ≤ 223) = true)
    (hb3 : (224 ≤ b && b ≤ 239) = true) (hc2 : cont2Ok3 b b2 = true)
    (hc3 : contOk b3 = true) :
    decodeR (b :: b2 :: b3 :: l) =
      Char.ofNat ((b - 224) * 4096 + (b2 - 128) * 64 + (b3 - 128)) ::
        decodeR l := by
  simp only [decodeR, List.length_cons]
  rw [decodeRAux_three _ _ _ _ _ hb1 hb2 hb3 hc2 hc3,
    decodeRAux_stable (l.length + 1 + 1 + 1) (l.length + 1) l (by omega)
      (by omega)]

/-- `decodeR` on a well-formed four-byte sequence. -/
theorem decodeR_four (b b2 b3 b4 : Nat) (l : List Nat) (hb1 : ¬ b < 128)
    (hb2 : ¬ (194 ≤ b && b ≤ 223) = true)
    (hb3 : ¬ (224 ≤ b && b ≤ 239) = true)
    (hb4 : (240 ≤ b && b ≤ 244) = true) (hc2 : cont2Ok4 b b2 = true)
    (hc3 : contOk b3 = true) (hc4 : contOk b4 = true) :
    decodeR (b :: b2 :: b3 :: b4 :: l) =
      Char.ofNat ((b - 240) * 262144 + (b2 - 128) * 4096 +
        (b3 - 128) * 64 + (b4 - 128)) :: decodeR l := by
  simp only [decodeR, List.length_cons]
  rw [decodeRAux_four _ _ _ _ _ _ hb1 hb2 hb3 hb4 hc2 hc3 hc4,
    decodeRAux_stable (l.length + 1 + 1 + 1 + 1) (l.length + 1) l (by omega)
      (by omega)]

/-- Aux-level version of `decodeR_append_of_valid`, by induction on the
validity check's fuel. -/
theorem decodeR_append_of_validAux : ∀ (fuel : Nat) (a : List Nat),
    validUtf8Aux fuel a = true → ∀ y : List Nat,
      decodeR (a ++ y) = decodeR a ++ decodeR y := by
  intro fuel
  induction fuel with
  | zero =>
    intro a hv y
    simp [validUtf8Aux] at hv
  | succ f ih =>
    intro a hv y
    cases a with
    | nil => rfl
    | cons b rest =>
      by_cases hb1 : b < 128
      · have hvr : validUtf8Aux f rest = true := by
          simpa only [validUtf8Aux, hb1, if_true] using hv
        rw [List.cons_append, decodeR_ascii _ _ hb1, decodeR_ascii _ _ hb1,
          ih rest hvr y, List.cons_append]
      · by_cases hb2 : (194 ≤ b && b ≤ 223) = true
        · cases rest with
          | nil => simp [validUtf8Aux, hb1, hb2] at hv
          | cons b2 rest2 =>
            have hv2 : contOk b2 = true ∧ validUtf8Aux f rest2 = true := by
              simpa only [validUtf8Aux, hb1, hb2, if_true, if_false,
                Bool.and_eq_true] using hv
            rw [List.cons_append, List.cons_append,
              decodeR_two _ _ _ hb1 hb2 hv2.1, decodeR_two _ _ _ hb1 hb2 hv2.1,
              ih rest2 hv2.2 y, List.cons_append]
        · by_cases hb3 : (224 ≤ b && b ≤ 239) = true
          · cases rest with
            | nil => simp [validUtf8Aux, hb1, hb2, hb3] at hv
            | cons b2 rest2 =>
              cases rest2 with
              | nil => simp [validUtf8Aux, hb1, hb2, hb3] at hv
              | cons b3 rest3 =>
                have hv2 : cont2Ok3 b b2 = true ∧ contOk b3 = true ∧
                    validUtf8Aux f rest3 = true := by
                  simpa only [validUtf8Aux, hb1, hb2, hb3, if_true, if_false,
                    Bool.false_eq_true, Bool.and_eq_true, and_assoc] using hv
                rw [List.cons_append, List.cons_append, List.cons_append,
                  decodeR_three _ _ _ _ hb1 hb2 hb3 hv2.1 hv2.2.1,
                  decodeR_three _ _ _ _ hb1 hb2 hb3 hv2.1 hv2.2.1,
                  ih rest3 hv2.2.2 y, List.cons_append]
          · by_cases hb4 : (240 ≤ b && b ≤ 244) = true
            · cases rest with
              | nil => simp [validUtf8Aux, hb1, hb2, hb3, hb4] at hv
              | cons b2 rest2 =>
                cases rest2 with
                | nil => simp [validUtf8Aux, hb1, hb2, hb3, hb4] at hv
                | cons b3 rest3 =>
                  cases rest3 with
                  | nil => simp [validUtf8Aux, hb1, hb2, hb3, hb4] at hv
                  | cons b4 rest4 =>
                    have hv2 : cont2Ok4 b b2 = true ∧ contOk b3 = true ∧
                        contOk b4 = true ∧ validUtf8Aux f rest4 = true := by
                      simpa only [validUtf8Aux, hb1, hb2, hb3, hb4, if_true,
                        if_false, Bool.false_eq_true, Bool.and_eq_true,
                        and_assoc] using hv
                    rw [List.cons_append, List.cons_append, List.cons_append,
                      List.cons_append,
                      decodeR_four _ _ _ _ _ hb1 hb2 hb3 hb4 hv2.1 hv2.2.1
                        hv2.2.2.1,
                      decodeR_four _ _ _ _ _ hb1 hb2 hb3 hb4 hv2.1 hv2.2.1
                        hv2.2.2.1,
                      ih rest4 hv2.2.2.2 y, List.cons_append]
            · simp [validUtf8Aux, hb1, hb2, hb3, hb4] at hv

/-- Decoding distributes over concatenation when the left part is
well-formed UTF-8: the decoder is back in its initial state after a valid
sequence, so later bytes decode independently. -/
theorem decodeR_append_of_valid (a : List Nat) (hv : validUtf8 a = true)
    (y : List Nat) : decodeR (a ++ y) = decodeR a ++ decodeR y :=
  decodeR_append_of_validAux (a.length + 1) a hv y

/-- Per-chunk decoding of an all-valid chunk list equals decoding the
concatenation. -/
theorem decodeR_flatten (bss : List (List Nat))
    (hv : ∀ b ∈ bss, validUtf8 b = true) :
    decodeR bss.flatten = (bss.map decodeR).flatten := by
  induction bss with
  | nil => rfl
  | cons b rest ih =>
    simp only [List.flatten_cons, List.map_cons]
    rw [decodeR_append_of_valid b (hv b (by simp)) rest.flatten,
      ih (fun x hx => hv x (by simp [hx]))]

/-! ### Claims C1 and C8 -/

/-- Claim C1 (amended): chunking invariance of the SSE Frame Splitter at
character boundaries. For every byte sequence and every way of
partitioning it into chunks each of which is well-formed UTF-8 — which
includes every partition cutting mid-delimiter, but excludes cutting a
multi-byte character, where per-chunk replacement decoding changes the
text (see the counterexample) — the splitting loop in `generate` emits
exactly the same frames, in the same order, as feeding the whole
sequence as one chunk. -/
theorem splitter_chunking_invariance (whole : List Nat)
    (bss : List (List Nat)) (hpart : bss.flatten = whole)
    (hvalid : ∀ b ∈ bss, validUtf8 b = true) :
    splitEmitted bss = splitEmitted [ whole ] := by
  subst hpart
  simp only [splitEmitted]
  rw [feeds_eq_splitNN _ [] rfl, feeds_eq_splitNN _ [] rfl]
  simp only [List.nil_append, List.map_cons, List.map_nil, List.flatten_cons,
    List.flatten_nil, List.append_nil]
  rw [decodeR_flatten bss hvalid]

/-- Witness for `splitter_chunking_invariance`: a two-chunk partition
cutting between the two newlines of a delimiter. -/
theorem splitter_chunking_invariance_witness :
    splitEmitted [ encodeStr (cl "data: a\n"), encodeStr (cl "\ndata: b\n\n") ]
      = splitEmitted
          [ encodeStr (cl "data: a\n") ++ encodeStr (cl "\ndata: b\n\n") ] :=
  splitter_chunking_invariance _ _ rfl (by decide)

/-- Claim C1 counterexample: the partition `[[0xC3], [0xA9, LF, LF]]` of
the UTF-8 bytes of `é\n\n` cuts the two-byte character: fed chunk by
chunk the single frame decodes to two replacement characters, fed whole
it decodes to `é`, so the frames differ in content. -/
theorem splitter_chunking_fails_mid_character :
    splitEmitted [ [ 195 ], [ 169, 10, 10 ] ] ≠
      splitEmitted [ [ 195, 169, 10, 10 ] ] := by
  decide

/-- `processPieces` over a concatenation whose first part raises: the
tail is never reached. -/
theorem processPieces_append_error (xid : List Char)
    (ps qs : List (List Char)) (e : PyEx) :
    (processPieces xid ps).2 = Option.some e →
    processPieces xid (ps ++ qs) = processPieces xid ps := by
  induction ps with
  | nil => intro h; simp [processPieces] at h
  | cons p ps' ih =>
    intro h
    rw [List.cons_append]
    simp only [processPieces] at h ⊢
    cases hp : processPiece xid p with
    | error e2 => simp only [hp]
    | ok r =>
      obtain ⟨ys, pubs⟩ := r
      simp only [hp] at h ⊢
      rw [ih h]

/-- `processPieces` over a concatenation whose first part completes:
results concatenate. -/
theorem processPieces_append_none (xid : List Char)
    (ps qs : List (List Char)) :
    (processPieces xid ps).2 = Option.none →
    processPieces xid (ps ++ qs) =
      (((processPieces xid ps).1.1 ++ (processPieces xid qs).1.1,
        (processPieces xid ps).1.2 ++ (processPieces xid qs).1.2),
       (processPieces xid qs).2) := by
  induction ps with
  | nil =>
    intro _
    simp [processPieces]
  | cons p ps' ih =>
    intro h
    rw [List.cons_append]
    simp only [processPieces] at h ⊢
    cases hp : processPiece xid p with
    | error e2 =>
      simp only [hp] at h
      exact Option.noConfusion h
    | ok r =>
      obtain ⟨ys, pubs⟩ := r
      simp only [hp] at h ⊢
      rw [ih h]
      simp [List.append_assoc]

/-- The chunk loop is the frame loop over all pieces the splitter emits:
the final leftover buffer contributes nothing. -/
theorem genLoop_eq_processPieces : ∀ (bss : List (List Nat))
    (xid buf : List Char), splitNN buf = ([], buf) →
    genLoop xid buf bss = processPieces xid (feeds buf (bss.map decodeR)).1 := by
  intro bss
  induction bss with
  | nil =>
    intro xid buf hb
    simp [genLoop, feeds, processPieces]
  | cons b bs ih =>
    intro xid buf hb
    simp only [genLoop, feeds, List.map_cons]
    rcases hP : processPieces xid (splitNN (buf ++ decodeR b)).1 with ⟨⟨ys, pubs⟩, err⟩
    cases err with
    | some e =>
      simp only [hP]
      rw [processPieces_append_error xid _ _ e (by rw [hP])]
      rw [hP]
    | none =>
      simp only [hP]
      rw [processPieces_append_none xid _ _ (by rw [hP])]
      rw [ih xid _ (splitNN_last_trivial (buf ++ decodeR b)), hP]

/-- Claim C8: the splitter buffer invariant. After absorbing any chunk
sequence, (a) concatenating the emitted pieces, each re-suffixed with the
delimiter, followed by the leftover buffer reconstructs the accumulated
decoded text exactly; (b) the buffer holds no delimiter, so it is
exactly the text after the last delimiter seen; and (c) the loop's
yields and publishes are a function of the emitted pieces alone — the
leftover is dropped at end of data without being processed. -/
theorem splitter_buffer_invariant :
    (∀ bss : List (List Nat),
      joinPieces (splitEmitted bss) ++ finalBuf bss =
        (bss.map decodeR).flatten)
    ∧ (∀ bss : List (List Nat),
        containsSub (cl "\n\n") (finalBuf bss) = false)
    ∧ (∀ (xid : List Char) (bss : List (List Nat)),
        genLoop xid [] bss = processPieces xid (splitEmitted bss)) := by
  refine ⟨?_, ?_, ?_⟩
  · intro bss
    simp only [splitEmitted, finalBuf, feeds_eq_splitNN _ [] rfl,
      List.nil_append]
    exact splitNN_reconstruct _
  · intro bss
    simp only [finalBuf, feeds_eq_splitNN _ [] rfl, List.nil_append]
    exact splitNN_snd_no_delim _
  · intro xid bss
    simp only [splitEmitted]
    exact genLoop_eq_processPieces bss xid [] rfl

/-! ### Claims C9 and C4 -/

/-- Every yield of one piece's processing is an ok-tagged text payload. -/
theorem processPiece_yield_shape (xid p : List Char)
    (r : List (Bool × Payload) × List (List Char × List Char))
    (h : processPiece xid p = .ok r) :
    ∀ y ∈ r.1, y.1 = true ∧ ∃ v, y.2 = .text v := by
  simp only [processPiece, bind, Except.bind] at h
  by_cases h1 : (pyStrip p).isEmpty
  · simp only [h1, if_true, pure, Except.pure, Except.ok.injEq] at h
    rw [← h]
    intro y hy
    simp at hy
  · simp only [h1, Bool.false_eq_true, if_false] at h
    by_cases h2 : containsSub (cl "data:") p = true
    · simp only [h2, if_true] at h
      cases hr : parse_sse_chunk_publish_to_redis xid
          (encodeStr (p ++ cl "\n\n")) with
      | error e => rw [hr] at h; cases h
      | ok pr =>
        rw [hr] at h
        simp only [pure, Except.pure, Except.ok.injEq] at h
        rw [← h]
        intro y hy
        simp only [List.mem_singleton] at hy
        subst hy
        exact ⟨rfl, pr.2, rfl⟩
    · simp only [h2, Bool.false_eq_true, if_false, pure, Except.pure,
        Except.ok.injEq] at h
      rw [← h]
      intro y hy
      simp at hy

/-- Every yield of the frame loop is an ok-tagged text payload. -/
theorem processPieces_yield_shape (xid : List Char) :
    ∀ (ps : List (List Char)) (y : Bool × Payload),
      y ∈ (processPieces xid ps).1.1 → y.1 = true ∧ ∃ v, y.2 = .text v := by
  intro ps
  induction ps with
  | nil =>
    intro y hy
    simp [processPieces] at hy
  | cons p ps' ih =>
    intro y hy
    simp only [processPieces] at hy
    cases hp : processPiece xid p with
    | error e =>
      rw [hp] at hy
      simp at hy
    | ok r =>
      rw [hp] at hy
      simp only [List.mem_append] at hy
      cases hy with
      | inl hin => exact processPiece_yield_shape xid p r hp y hin
      | inr hin => exact ih y hin

/-- Every yield of the chunk loop is an ok-tagged text payload. -/
theorem genLoop_yield_shape (xid : List Char) :
    ∀ (bss : List (List Nat)) (buf : List Char) (y : Bool × Payload),
      y ∈ (genLoop xid buf bss).1.1 → y.1 = true ∧ ∃ v, y.2 = .text v := by
  intro bss
  induction bss with
  | nil =>
    intro buf y hy
    simp [genLoop] at hy
  | cons b bs ih =>
    intro buf y hy
    simp only [genLoop] at hy
    rcases hP : processPieces xid (splitNN (buf ++ decodeR b)).1
      with ⟨⟨ys, pubs⟩, err⟩
    rw [hP] at hy
    cases err with
    | some e =>
      simp only [List.mem_append] at hy
      have : y ∈ ys := by simpa using hy
      have hmem : y ∈ (processPieces xid (splitNN (buf ++ decodeR b)).1).1.1 := by
        rw [hP]; exact this
      exact processPieces_yield_shape xid _ y hmem
    | none =>
      simp only [List.mem_append] at hy
      cases hy with
      | inl hin =>
        have hmem : y ∈ (processPieces xid (splitNN (buf ++ decodeR b)).1).1.1 := by
          rw [hP]; exact hin
        exact processPieces_yield_shape xid _ y hmem
      | inr hin => exact ih _ y hin

/-- The non-2xx branch's yield, when its dict accesses succeed, is a
failure-tagged byte payload. -/
theorem statusYield_shape (r : Resp) (y0 : Bool × Payload)
    (h : statusYield r = .ok y0) : y0.1 = false ∧ ∃ bs, y0.2 = .bytes bs := by
  simp only [statusYield, bind, Except.bind] at h
  cases h1 : pyGet (errorData r) (cl "message")
      (.str (cl "An error occurred during LLM API call")) with
  | error e => rw [h1] at h; cases h
  | ok m =>
    rw [h1] at h
    cases h2 : pyGet (errorData r) (cl "data") .none with
    | error e => rw [h2] at h; cases h
    | ok d =>
      rw [h2] at h
      simp only [pure, Except.pure, Except.ok.injEq] at h
      rw [← h]
      exact ⟨rfl, _, rfl⟩

/-- A loop yield satisfies both payload-shape implications. -/
theorem shape_of_ok_yield (y : Bool × Payload) (h1 : y.1 = true)
    (h2 : ∃ v, y.2 = .text v) :
    (y.1 = false → ∃ bs, y.2 = .bytes bs) ∧ (y.1 = true → ∃ v, y.2 = .text v) := by
  refine ⟨fun hf => ?_, fun _ => h2⟩
  rw [h1] at hf
  cases hf

/-- Claim C9 (amended): the payload of every yielded pair is a byte
string on every failure path, while the success path yields the
extracted text value (a `str` in the source), not bytes. -/
theorem yield_payload_shape :
    ∀ (xid : List Char) (up : Upstream) (y : Bool × Payload),
      y ∈ (generate xid up).1 →
      (y.1 = false → ∃ bs, y.2 = .bytes bs)
      ∧ (y.1 = true → ∃ v, y.2 = .text v) := by
  intro xid up y hy
  cases up with
  | raise e =>
    cases e with
    | connect m =>
      simp only [generate, excYield, connectYield, List.mem_singleton] at hy
      subst hy
      exact ⟨fun _ => ⟨_, rfl⟩, fun ht => by cases ht⟩
    | timeout m =>
      simp only [generate, excYield, timeoutYield, List.mem_singleton] at hy
      subst hy
      exact ⟨fun _ => ⟨_, rfl⟩, fun ht => by cases ht⟩
    | other m =>
      simp only [generate, excYield, unexpectedYield, List.mem_singleton] at hy
      subst hy
      exact ⟨fun _ => ⟨_, rfl⟩, fun ht => by cases ht⟩
  | resp r =>
    simp only [generate] at hy
    by_cases hst : r.status = 200 ∨ r.status = 201
    · rw [if_pos hst] at hy
      rcases hL : genLoop xid [] r.chunks with ⟨⟨ys, pubs⟩, err⟩
      rw [hL] at hy
      cases err with
      | some e =>
        simp only [List.mem_append, List.mem_singleton] at hy
        cases hy with
        | inl hin =>
          have hsh := genLoop_yield_shape xid r.chunks [] y (by rw [hL]; exact hin)
          exact shape_of_ok_yield y hsh.1 hsh.2
        | inr hy1 =>
          subst hy1
          exact ⟨fun _ => ⟨_, rfl⟩, fun ht => by cases ht⟩
      | none =>
        cases hm : r.midErr with
        | some e =>
          rw [hm] at hy
          simp only [List.mem_append, List.mem_singleton] at hy
          cases hy with
          | inl hin =>
            have hsh := genLoop_yield_shape xid r.chunks [] y
              (by rw [hL]; exact hin)
            exact shape_of_ok_yield y hsh.1 hsh.2
          | inr hy1 =>
            subst hy1
            cases e with
            | connect m => exact ⟨fun _ => ⟨_, rfl⟩, fun ht => by cases ht⟩
            | timeout m => exact ⟨fun _ => ⟨_, rfl⟩, fun ht => by cases ht⟩
            | other m => exact ⟨fun _ => ⟨_, rfl⟩, fun ht => by cases ht⟩
        | none =>
          rw [hm] at hy
          have hsh := genLoop_yield_shape xid r.chunks [] y
            (by rw [hL]; exact hy)
          exact shape_of_ok_yield y hsh.1 hsh.2
    · rw [if_neg hst] at hy
      cases hs : statusYield r with
      | ok y0 =>
        rw [hs] at hy
        simp only [List.mem_singleton] at hy
        subst hy
        have hsh := statusYield_shape r y hs
        refine ⟨fun _ => hsh.2, fun ht => ?_⟩
        rw [hsh.1] at ht
        cases ht
      | error e =>
        rw [hs] at hy
        simp only [List.mem_singleton] at hy
        subst hy
        exact ⟨fun _ => ⟨_, rfl⟩, fun ht => by cases ht⟩

/-- Claim C9 counterexample: a successful upstream interaction with one
data frame yields one ok-tagged pair whose payload is not a byte
string — the contract's `payload : bytes` fails on the success path. -/
theorem yield_payload_not_bytes_on_success :
    yieldShapes (generate (cl "r1") (.resp
      ⟨200,
        [ encodeStr
            (cl "data: \x7b\"choices\": [\x7b\"delta\": \x7b\"content\": \"Hi\"\x7d\x7d]\x7d\n\n") ],
        Option.none, Option.none⟩)).1 = [ (true, false) ] := by
  rfl

/-- Witness for `yield_payload_shape`: the timeout failure yield of a
concrete run is a bytes payload. -/
theorem yield_payload_shape_witness :
    (timeoutYield.1 = false → ∃ bs, timeoutYield.2 = Payload.bytes bs)
    ∧ (timeoutYield.1 = true → ∃ v, timeoutYield.2 = Payload.text v) :=
  yield_payload_shape (cl "r1") (.raise (.timeout (cl "t"))) timeoutYield
    (List.mem_singleton.mpr rfl)

/-- Claim C4 (amended): failure classification of `generate`. Any failure
yield appears only as the final yield (so each failing run yields exactly
one `(false, errorEvent)` and terminates, and the embedding is total — no
exception escapes). A request-level connect error yields one status-500
event, a timeout one status-504 event, any other raise one status-500
event, each with application code `60100`. A non-2xx response yields one
event with the upstream status — provided the error body is empty,
unreadable, invalid JSON, or a JSON object; a body parsing to a JSON
non-object raises at the `message` lookup and is reclassified as an
unexpected failure with status 500. Mid-stream raises append exactly one
classified failure yield after the successful ones, and a cleanly
finished stream has only ok yields. -/
theorem failure_classification :
    (∀ (xid : List Char) (up : Upstream),
      okUntilLast (generate xid up).1 = true)
    ∧ (∀ (xid m : List Char),
        generate xid (.raise (.connect m)) = ([ connectYield m ], [])
        ∧ connectYield m = (false, .bytes (encodeStr (format_sse_error 500
            (cl "60100")
            (.str (cl "Network error occurred during Athena API call"))
            (.dict [ (cl "detail", .str m) ])))))
    ∧ (∀ (xid m : List Char),
        generate xid (.raise (.timeout m)) = ([ timeoutYield ], [])
        ∧ timeoutYield = (false, .bytes (encodeStr (format_sse_error 504
            (cl "60100") (.str (cl "Athena API request timed out"))
            (.dict [ (cl "timeout", .intV 600) ])))))
    ∧ (∀ (xid m : List Char),
        generate xid (.raise (.other m)) = ([ unexpectedYield m ], [])
        ∧ unexpectedYield m = (false, .bytes (encodeStr (format_sse_error 500
            (cl "60100") (.str (cl "Unexpected error: " ++ m)) .none))))
    ∧ (∀ (xid : List Char) (r : Resp), ¬(r.status = 200 ∨ r.status = 201) →
        isDictV (errorData r) = true →
        ∃ msg d, generate xid (.resp r) =
          ([ (false, .bytes (encodeStr
              (format_sse_error r.status (cl "60100") msg d))) ], []))
    ∧ (∀ (xid : List Char) (r : Resp), ¬(r.status = 200 ∨ r.status = 201) →
        isDictV (errorData r) = false →
        generate xid (.resp r) =
          ([ unexpectedYield (cl "AttributeError") ], []))
    ∧ (∀ (xid : List Char) (r : Resp) (e : PyEx),
        (r.status = 200 ∨ r.status = 201) →
        (genLoop xid [] r.chunks).2 = Option.some e →
        (generate xid (.resp r)).1 =
          (genLoop xid [] r.chunks).1.1 ++ [ unexpectedYield e ])
    ∧ (∀ (xid : List Char) (r : Resp) (e : Exc),
        (r.status = 200 ∨ r.status = 201) →
        (genLoop xid [] r.chunks).2 = Option.none →
        r.midErr = Option.some e →
        (generate xid (.resp r)).1 =
          (genLoop xid [] r.chunks).1.1 ++ [ excYield e ])
    ∧ (∀ (xid : List Char) (r : Resp),
        (r.status = 200 ∨ r.status = 201) →
        (genLoop xid [] r.chunks).2 = Option.none →
        r.midErr = Option.none →
        ∀ y ∈ (generate xid (.resp r)).1, y.1 = true) := by
  have hloop_all : ∀ (xid : List Char) (bss : List (List Nat))
      (ys : List (Bool × Payload)),
      (∀ y ∈ ys, y ∈ (genLoop xid [] bss).1.1) →
      ys.all (fun y => y.1) = true := by
    intro xid bss ys hsub
    rw [List.all_eq_true]
    intro y hy
    exact (genLoop_yield_shape xid bss [] y (hsub y hy)).1
  refine ⟨?_, ?_, ?_, ?_, ?_, ?_, ?_, ?_, ?_⟩
  · intro xid up
    cases up with
    | raise e => cases e <;> simp [generate, okUntilLast]
    | resp r =>
      simp only [generate]
      by_cases hst : r.status = 200 ∨ r.status = 201
      · rw [if_pos hst]
        rcases hL : genLoop xid [] r.chunks with ⟨⟨ys, pubs⟩, err⟩
        have hall : ys.all (fun y => y.1) = true := by
          refine hloop_all xid r.chunks ys (fun y hy => ?_)
          rw [hL]
          exact hy
        cases err with
        | some e =>
          simp only [okUntilLast, List.dropLast_concat]
          exact hall
        | none =>
          cases r.midErr with
          | some e =>
            simp only [okUntilLast, List.dropLast_concat]
            exact hall
          | none =>
            simp only [okUntilLast]
            rw [List.all_eq_true] at hall ⊢
            intro y hy
            exact hall y (List.dropLast_subset _ hy)
      · rw [if_neg hst]
        cases hs : statusYield r <;> simp [okUntilLast]
  · intro xid m
    exact ⟨rfl, rfl⟩
  · intro xid m
    exact ⟨rfl, rfl⟩
  · intro xid m
    exact ⟨rfl, rfl⟩
  · intro xid r h1 h2
    cases hed : errorData r with
    | dict kvs =>
      refine ⟨(pyLookup kvs (cl "message")).getD
          (.str (cl "An error occurred during LLM API call")),
        (pyLookup kvs (cl "data")).getD .none, ?_⟩
      simp only [generate, if_neg h1, statusYield, bind, Except.bind, hed,
        pyGet, pure, Except.pure]
    | none => rw [hed] at h2; simp [isDictV] at h2
    | bool b => rw [hed] at h2; simp [isDictV] at h2
    | intV n => rw [hed] at h2; simp [isDictV] at h2
    | floatV lex => rw [hed] at h2; simp [isDictV] at h2
    | str s => rw [hed] at h2; simp [isDictV] at h2
    | list xs => rw [hed] at h2; simp [isDictV] at h2
  · intro xid r h1 h2
    have hs : statusYield r = .error (cl "AttributeError") := by
      cases hed : errorData r with
      | dict kvs => rw [hed] at h2; simp [isDictV] at h2
      | none => simp [statusYield, bind, Except.bind, hed, pyGet]
      | bool b => simp [statusYield, bind, Except.bind, hed, pyGet]
      | intV n => simp [statusYield, bind, Except.bind, hed, pyGet]
      | floatV lex => simp [statusYield, bind, Except.bind, hed, pyGet]
      | str s => simp [statusYield, bind, Except.bind, hed, pyGet]
      | list xs => simp [statusYield, bind, Except.bind, hed, pyGet]
    simp only [generate, if_neg h1, hs]
  · intro xid r e h1 h2
    simp only [generate, if_pos h1]
    rcases hL : genLoop xid [] r.chunks with ⟨⟨ys, pubs⟩, err⟩
    rw [hL] at h2
    simp only at h2
    subst h2
    rfl
  · intro xid r e h1 h2 h3
    simp only [generate, if_pos h1]
    rcases hL : genLoop xid [] r.chunks with ⟨⟨ys, pubs⟩, err⟩
    rw [hL] at h2
    simp only at h2
    subst h2
    rw [h3]
  · intro xid r h1 h2 h3 y hy
    simp only [generate, if_pos h1] at hy
    rcases hL : genLoop xid [] r.chunks with ⟨⟨ys, pubs⟩, err⟩
    rw [hL] at hy h2
    simp only at h2
    subst h2
    rw [h3] at hy
    exact (genLoop_yield_shape xid r.chunks [] y (by rw [hL]; exact hy)).1

/-- Witness for `failure_classification` on concrete failing scenarios:
a 503 with a JSON-object body keeps the upstream status, and a
mid-stream extraction raise appends exactly one failure yield. -/
theorem failure_classification_witness :
    (∃ msg d, generate (cl "r1") (.resp
      ⟨503, [], Option.none,
        Option.some (encodeStr (cl "\x7b\"message\": \"boom\"\x7d"))⟩) =
      ([ (false, .bytes (encodeStr
          (format_sse_error 503 (cl "60100") msg d))) ], []))
    ∧ (generate (cl "r1") (.resp
        ⟨200, [ encodeStr (cl "data: 5\n\n") ], Option.none, Option.none⟩)).1 =
      (genLoop (cl "r1") [] [ encodeStr (cl "data: 5\n\n") ]).1.1 ++
        [ unexpectedYield (cl "AttributeError") ] :=
  ⟨failure_classification.2.2.2.2.1 (cl "r1") _ (by decide) (by rfl),
   failure_classification.2.2.2.2.2.2.1 (cl "r1") _ (cl "AttributeError")
     (by decide) (by rfl)⟩

/-- Claim C4 counterexample: upstream status 503 with the error body `5`
— valid JSON that is not an object. The `.get` on the parsed body raises,
the generic handler takes over, and the single failure yield carries
status 500, not the upstream 503 the claim requires. -/
theorem status_not_preserved_on_nonobject_body :
    (generate (cl "r1") (.resp ⟨503, [], Option.none,
        Option.some (encodeStr (cl "5"))⟩)).1.map yieldStatusCode
      = [ Option.some 500 ]
    ∧ (generate (cl "r1") (.resp ⟨503, [], Option.none,
        Option.some (encodeStr (cl "5"))⟩)).1.map yieldStatusCode
      ≠ [ Option.some 503 ] := by
  exact ⟨rfl, by decide⟩

end PyEditor
